import Mathlib

/-!
# smartix: a dimension-tagged numeric grid with cell-wise arithmetic

Shallow embedding of `src/smartix.hpp` (class template `smartix<T>`).

* `std::vector<X>` is a `List X`; `size_t` is a `Nat` below `2 ^ 64`, and every
  `size_t` multiplication is reduced modulo `2 ^ 64`.
* Memory is unbounded: `resize` always succeeds.
* `assert` is compiled in (no `NDEBUG`): a failing assertion aborts the run.
* The unchecked accessors `uacc` / `uacc_const` have undefined behaviour outside
  the storage; the embedding reports that as the fault `outOfRange`.
* The element types are template parameters.  Their built-in arithmetic and
  conversions are passed to the embedded functions as explicit dictionaries
  (`ElemArith`, `conv`); `none` stands for an element operation without a defined
  value (integer division by zero or of the least value by `-1`, a floating value
  that does not fit the integer it is converted to, a floating result that is not
  finite).
* A scalar operand of an arithmetic operator is received as `R const &`
  (`ScalarRef`): the in-place loops read it again at every cell, so an operand that
  is a cell of the receiver changes under the loop.
-/

/-! ## Faults and outcomes -/

/-- Ways in which a run stops without completing. -/
inductive Fault where
  | assertion
  | outOfRange
  | arithmetic
  deriving DecidableEq

/-- Outcome of a member function that writes to its receiver: either it ran to
completion and left the receiver in state `s`, or it stopped with a fault and
the receiver was in state `s` at that moment. -/
inductive Run (σ : Type) where
  | done (s : σ)
  | stop (f : Fault) (s : σ)
  deriving DecidableEq

/-- Result of a function that builds a new object: the state reached on a fault is dropped. -/
def Run.toExcept {σ : Type} : Run σ → Except Fault σ
  | .done s => .ok s
  | .stop f _ => .error f

/-- The receiver state an outcome ends in, completed or not. -/
def Run.state {σ : Type} : Run σ → σ
  | .done s => s
  | .stop _ s => s

/-! ## size_t -/

/-- Width of `size_t` in bits. -/
def SIZE_BITS : Nat := 64

/-- Multiplication of two `size_t` values: unsigned, wrapping. -/
def size_mul (a b : Nat) : Nat := (a * b) % 2 ^ SIZE_BITS

/-! ## Element arithmetic -/

/-- The four operators of the library. -/
inductive Op where
  | add
  | sub
  | mul
  | div
  deriving DecidableEq

/-- Built-in compound assignments `t += r`, `t -= r`, `t *= r`, `t /= r` for a left operand of
type `T` and a right operand of type `R`: each returns the new value of `t`, or `none` when the
C++ expression has no defined value of type `T` (undefined behaviour in the language). -/
structure ElemArith (T R : Type) where
  add : T → R → Option T
  sub : T → R → Option T
  mul : T → R → Option T
  div : T → R → Option T

/-- The compound assignment selected by an operator. -/
def ElemArith.ap {T R : Type} (ar : ElemArith T R) : Op → T → R → Option T
  | .add => ar.add
  | .sub => ar.sub
  | .mul => ar.mul
  | .div => ar.div

/-- A scalar operand received as `R const &`: the value read through the reference, as a
function of the current cells of the receiver (the only memory an in-place loop writes);
`none` when the reference denotes no object. -/
def ScalarRef (T R : Type) : Type := List T → Option R

/-- A reference to an object that is not a cell of the receiver: it reads `s` throughout. -/
def ScalarRef.value {T R : Type} (s : R) : ScalarRef T R := fun _ => some s

/-- A reference to cell `j` of the receiver itself, as in `A += A.uacc(j)`. -/
def ScalarRef.cell {T : Type} (j : Nat) : ScalarRef T T := fun cells => cells[j]?

/-! ## The class -/

/-- The class `smartix<T>`: `_dim` holds the dimensions, `_full` the cells. -/
structure smartix (T : Type) where
  _dim : List Nat
  _full : List T
  deriving DecidableEq

namespace smartix

variable {T R L : Type}

/-- Source `getDimensions`: a copy of `_dim`. -/
def getDimensions (self : smartix T) : List Nat :=
  let ret := self._dim
  ret

/-- Source `getData`: a copy of `_full`. -/
def getData (self : smartix T) : List T :=
  let ret := self._full
  ret

/-- The data-model invariant of the specification: the storage length is the product of the
dimensions. -/
def invariant (self : smartix T) : Prop :=
  self.getData.length = self.getDimensions.prod

/-- Source `uacc_const`: `_full.data()[loc]`, no bounds check (`none`: outside the storage). -/
def uacc_const (self : smartix T) (loc : Nat) : Option T :=
  self._full[loc]?

/-- Source `uacc`, a write through the returned reference: `uacc(loc) = v`
(`none`: outside the storage). -/
def uacc_write (self : smartix T) (loc : Nat) (v : T) : Option (smartix T) :=
  if loc < self._full.length then some { self with _full := self._full.set loc v } else none

/-! ### Constructors -/

/-- Source `container_cast`: builds the target vector from the range of `from`, converting
each element. -/
def container_cast (conv : R → Option T) : List R → Option (List T)
  | [] => some []
  | x :: xs =>
    match conv x, container_cast conv xs with
    | some y, some ys => some (y :: ys)
    | _, _ => none

/-- Source `smartix(smartix<T> const &src)`: copy constructor. -/
def ofCopy (src : smartix T) : smartix T :=
  { _dim := src.getDimensions, _full := src.getData }

/-- Source `smartix(smartix<R> const &src)`: converting constructor.  The `clear` and `resize`
that precede the final assignment of `_full` are overwritten by it. -/
def ofGrid (conv : R → Option T) (src : smartix R) : Except Fault (smartix T) :=
  match container_cast conv src.getData with
  | some cells => .ok { _dim := src.getDimensions, _full := cells }
  | none => .error .arithmetic

/-- Source `smartix(std::vector<size_t> Dimensions)`: `total` starts at `_dim[0]` and is
multiplied by every further entry; the storage is resized to `total` value-initialised cells
(`dflt`).  Reading `_dim[0]` of an empty vector is out of range. -/
def ofDimensions (dflt : T) (Dimensions : List Nat) : Except Fault (smartix T) :=
  match Dimensions with
  | [] => .error .outOfRange
  | d0 :: rest =>
    let total := rest.foldl size_mul d0
    .ok { _dim := d0 :: rest, _full := List.replicate total dflt }

/-- Source `smartix(size_t width, size_t height)`: `_dim(2)` is a vector of two
value-initialised entries. -/
def of2 (dflt : T) (width height : Nat) : smartix T :=
  { _dim := List.replicate 2 0,
    _full := List.replicate (size_mul width height) dflt }

/-- Source `smartix(size_t width, size_t height, size_t depth)`. -/
def of3 (dflt : T) (width height depth : Nat) : smartix T :=
  { _dim := List.replicate 3 0,
    _full := List.replicate (size_mul (size_mul width height) depth) dflt }

/-- Source `smartix(size_t width, size_t height, size_t depth, size_t cube)`. -/
def of4 (dflt : T) (width height depth cube : Nat) : smartix T :=
  { _dim := List.replicate 4 0,
    _full := List.replicate (size_mul (size_mul (size_mul width height) depth) cube) dflt }

/-! ### In-place operators with a grid operand -/

/-- The loop `for (i = 0; i < _full.size(); ++i) uacc(i) OP= other.uacc_const(i);` with
`n` iterations left and loop counter `i`; `f` is the element-level update. -/
def grid_loop (f : T → R → Option T) (other : smartix R) : Nat → Nat → smartix T → Run (smartix T)
  | 0, _, self => .done self
  | n + 1, i, self =>
    match other.uacc_const i, self.uacc_const i with
    | some r, some t =>
      match f t r with
      | some v =>
        match self.uacc_write i v with
        | some next => grid_loop f other n (i + 1) next
        | none => .stop .outOfRange self
      | none => .stop .arithmetic self
    | _, _ => .stop .outOfRange self

/-- Source `operator+=(smartix<R> const &addend)`. -/
def op_add_assign (ar : ElemArith T R) (self : smartix T) (addend : smartix R) : Run (smartix T) :=
  if self._dim = addend.getDimensions then
    grid_loop ar.add addend self._full.length 0 self
  else .stop .assertion self

/-- Source `operator-=(smartix<R> const &subtrahend)`. -/
def op_sub_assign (ar : ElemArith T R) (self : smartix T) (subtrahend : smartix R) :
    Run (smartix T) :=
  if self._dim = subtrahend.getDimensions then
    grid_loop ar.sub subtrahend self._full.length 0 self
  else .stop .assertion self

/-- Source `operator*=(smartix<R> const &multiplicand)`. -/
def op_mul_assign (ar : ElemArith T R) (self : smartix T) (multiplicand : smartix R) :
    Run (smartix T) :=
  if self._dim = multiplicand.getDimensions then
    grid_loop ar.mul multiplicand self._full.length 0 self
  else .stop .assertion self

/-- Source `operator/=(smartix<R> const &divisor)`. -/
def op_div_assign (ar : ElemArith T R) (self : smartix T) (divisor : smartix R) : Run (smartix T) :=
  if self._dim = divisor.getDimensions then
    grid_loop ar.div divisor self._full.length 0 self
  else .stop .assertion self

/-! ### In-place operators with a scalar operand, scalar assignment -/

/-- The loop of `std::fill`: every cell in turn receives `f` of itself.  On a fault the cells
before the faulting one are already updated. -/
def each_cell (f : T → Option T) : List T → Run (List T)
  | [] => .done []
  | x :: xs =>
    match f x with
    | none => .stop .arithmetic (x :: xs)
    | some v =>
      match each_cell f xs with
      | .done ys => .done (v :: ys)
      | .stop e ys => .stop e (v :: ys)

/-- The receiver with its storage replaced by the outcome of a loop over the cells. -/
def with_cells (self : smartix T) : Run (List T) → Run (smartix T)
  | .done cells => .done { self with _full := cells }
  | .stop e cells => .stop e { self with _full := cells }

/-- The iterator loop `for (it = _full.begin(); it != _full.end(); ++it) *it OP= operand;`
with `n` cells left and the iterator at cell `i`.  The operand is a reference: it is read
again at every cell, from the cells as they are then. -/
def scalar_loop (f : T → R → Option T) (operand : ScalarRef T R) :
    Nat → Nat → smartix T → Run (smartix T)
  | 0, _, self => .done self
  | n + 1, i, self =>
    match operand self._full, self.uacc_const i with
    | some r, some t =>
      match f t r with
      | some v =>
        match self.uacc_write i v with
        | some next => scalar_loop f operand n (i + 1) next
        | none => .stop .outOfRange self
      | none => .stop .arithmetic self
    | _, _ => .stop .outOfRange self

/-- Source `operator+=(R const &addend)`. -/
def op_add_assign_scalar (ar : ElemArith T R) (self : smartix T) (addend : ScalarRef T R) :
    Run (smartix T) :=
  scalar_loop ar.add addend self._full.length 0 self

/-- Source `operator-=(R const &subtrahend)`. -/
def op_sub_assign_scalar (ar : ElemArith T R) (self : smartix T) (subtrahend : ScalarRef T R) :
    Run (smartix T) :=
  scalar_loop ar.sub subtrahend self._full.length 0 self

/-- Source `operator*=(R const &multiplicand)`. -/
def op_mul_assign_scalar (ar : ElemArith T R) (self : smartix T) (multiplicand : ScalarRef T R) :
    Run (smartix T) :=
  scalar_loop ar.mul multiplicand self._full.length 0 self

/-- Source `operator/=(R const &divisor)`. -/
def op_div_assign_scalar (ar : ElemArith T R) (self : smartix T) (divisor : ScalarRef T R) :
    Run (smartix T) :=
  scalar_loop ar.div divisor self._full.length 0 self

/-! ### Assignment -/

/-- Source `operator=(smartix<R> const &copyme)`: cross-type assignment, cell by cell. -/
def op_assign_grid (conv : R → Option T) (self : smartix T) (copyme : smartix R) :
    Run (smartix T) :=
  if self._dim = copyme.getDimensions then
    grid_loop (fun _ r => conv r) copyme self._full.length 0 self
  else .stop .assertion self

/-- Source `operator=(smartix<T> const &copyme)`: same-type assignment. -/
def op_assign (self : smartix T) (copyme : smartix T) : Run (smartix T) :=
  if self._dim = copyme.getDimensions then
    .done { self with _full := copyme.getData }
  else .stop .assertion self

/-- Source `operator=(R const &copyme)`: `std::fill` over the storage.  Every cell receives the
same converted value, so an operand that is a cell of the receiver reads the same throughout
and the operand is taken as a value. -/
def op_assign_scalar (conv : R → Option T) (self : smartix T) (copyme : R) : Run (smartix T) :=
  self.with_cells (each_cell (fun _ => conv copyme) self._full)

/-! ### Allocating operators with a grid operand -/

/-- Source `operator+(smartix<R1> const &addend)`: assert, copy the receiver, add in place. -/
def op_add (ar : ElemArith T R) (self : smartix T) (addend : smartix R) :
    Except Fault (smartix T) :=
  if self._dim = addend.getDimensions then
    let toret := ofCopy self
    (op_add_assign ar toret addend).toExcept
  else .error .assertion

/-- Source `operator-(smartix<R1> const &subtrahend)`. -/
def op_sub (ar : ElemArith T R) (self : smartix T) (subtrahend : smartix R) :
    Except Fault (smartix T) :=
  if self._dim = subtrahend.getDimensions then
    let toret := ofCopy self
    (op_sub_assign ar toret subtrahend).toExcept
  else .error .assertion

/-- Source `operator*(smartix<R1> const &multiplicand)`. -/
def op_mul (ar : ElemArith T R) (self : smartix T) (multiplicand : smartix R) :
    Except Fault (smartix T) :=
  if self._dim = multiplicand.getDimensions then
    let toret := ofCopy self
    (op_mul_assign ar toret multiplicand).toExcept
  else .error .assertion

/-- Source `operator/(smartix<R1> const &divisor)`. -/
def op_div (ar : ElemArith T R) (self : smartix T) (divisor : smartix R) :
    Except Fault (smartix T) :=
  if self._dim = divisor.getDimensions then
    let toret := ofCopy self
    (op_div_assign ar toret divisor).toExcept
  else .error .assertion

/-! ### Allocating operators with a scalar operand -/

/-- Source `operator+(R1 const &addend)`: copy the receiver, add in place.  The loop writes
the copy `toret`, so an operand that is a cell of the receiver reads that cell as it was at
the call throughout. -/
def op_add_scalar (ar : ElemArith T R) (self : smartix T) (addend : ScalarRef T R) :
    Except Fault (smartix T) :=
  let toret := ofCopy self
  (op_add_assign_scalar ar toret (fun _ => addend self._full)).toExcept

/-- Source `operator-(R1 const &subtrahend)`. -/
def op_sub_scalar (ar : ElemArith T R) (self : smartix T) (subtrahend : ScalarRef T R) :
    Except Fault (smartix T) :=
  let toret := ofCopy self
  (op_sub_assign_scalar ar toret (fun _ => subtrahend self._full)).toExcept

/-- Source `operator*(R1 const &multiplicand)`. -/
def op_mul_scalar (ar : ElemArith T R) (self : smartix T) (multiplicand : ScalarRef T R) :
    Except Fault (smartix T) :=
  let toret := ofCopy self
  (op_mul_assign_scalar ar toret (fun _ => multiplicand self._full)).toExcept

/-- Source `operator/(R1 const &divisor)`. -/
def op_div_scalar (ar : ElemArith T R) (self : smartix T) (divisor : ScalarRef T R) :
    Except Fault (smartix T) :=
  let toret := ofCopy self
  (op_div_assign_scalar ar toret (fun _ => divisor self._full)).toExcept

/-! ### Scalar-left operators (friends) -/

/-- Source `friend operator+(L const &lhand, smartix<T> const &src)`: a fresh grid of the
dimensions of `src`, filled with `lhand`, then `toret += src`.  Only the fresh `toret` is
written, so `lhand` reads the same throughout and is taken as a value. -/
def scalar_add (conv : L → Option T) (ar : ElemArith T T) (dflt : T) (lhand : L)
    (src : smartix T) : Except Fault (smartix T) := do
  let toret ← ofDimensions dflt src.getDimensions
  let toret ← (op_assign_scalar conv toret lhand).toExcept
  (op_add_assign ar toret src).toExcept

/-- Source `friend operator-(L const &lhand, smartix<T> const &src)`. -/
def scalar_sub (conv : L → Option T) (ar : ElemArith T T) (dflt : T) (lhand : L)
    (src : smartix T) : Except Fault (smartix T) := do
  let toret ← ofDimensions dflt src.getDimensions
  let toret ← (op_assign_scalar conv toret lhand).toExcept
  (op_sub_assign ar toret src).toExcept

/-- Source `friend operator*(L const &lhand, smartix<T> const &src)`. -/
def scalar_mul (conv : L → Option T) (ar : ElemArith T T) (dflt : T) (lhand : L)
    (src : smartix T) : Except Fault (smartix T) := do
  let toret ← ofDimensions dflt src.getDimensions
  let toret ← (op_assign_scalar conv toret lhand).toExcept
  (op_mul_assign ar toret src).toExcept

/-- Source `friend operator/(L const &lhand, smartix<T> const &src)`. -/
def scalar_div (conv : L → Option T) (ar : ElemArith T T) (dflt : T) (lhand : L)
    (src : smartix T) : Except Fault (smartix T) := do
  let toret ← ofDimensions dflt src.getDimensions
  let toret ← (op_assign_scalar conv toret lhand).toExcept
  (op_div_assign ar toret src).toExcept

/-! ### The four operators of each family, selected by `Op` -/

/-- In-place operator with a grid operand. -/
def inplace_grid (o : Op) (ar : ElemArith T R) (self : smartix T) (other : smartix R) :
    Run (smartix T) :=
  match o with
  | .add => op_add_assign ar self other
  | .sub => op_sub_assign ar self other
  | .mul => op_mul_assign ar self other
  | .div => op_div_assign ar self other

/-- In-place operator with a scalar operand. -/
def inplace_scalar (o : Op) (ar : ElemArith T R) (self : smartix T) (s : ScalarRef T R) :
    Run (smartix T) :=
  match o with
  | .add => op_add_assign_scalar ar self s
  | .sub => op_sub_assign_scalar ar self s
  | .mul => op_mul_assign_scalar ar self s
  | .div => op_div_assign_scalar ar self s

/-- Allocating operator with a grid operand. -/
def alloc_grid (o : Op) (ar : ElemArith T R) (self : smartix T) (other : smartix R) :
    Except Fault (smartix T) :=
  match o with
  | .add => op_add ar self other
  | .sub => op_sub ar self other
  | .mul => op_mul ar self other
  | .div => op_div ar self other

/-- Allocating operator with a scalar operand. -/
def alloc_scalar (o : Op) (ar : ElemArith T R) (self : smartix T) (s : ScalarRef T R) :
    Except Fault (smartix T) :=
  match o with
  | .add => op_add_scalar ar self s
  | .sub => op_sub_scalar ar self s
  | .mul => op_mul_scalar ar self s
  | .div => op_div_scalar ar self s

/-- Scalar-left operator. -/
def scalar_left (o : Op) (conv : L → Option T) (ar : ElemArith T T) (dflt : T) (lhand : L)
    (src : smartix T) : Except Fault (smartix T) :=
  match o with
  | .add => scalar_add conv ar dflt lhand src
  | .sub => scalar_sub conv ar dflt lhand src
  | .mul => scalar_mul conv ar dflt lhand src
  | .div => scalar_div conv ar dflt lhand src

end smartix

/-! ## Built-in element types -/

/-- A C++ integer type: width in bits and signedness. -/
structure IntKind where
  bits : Nat
  signed : Bool
  deriving DecidableEq

/-- Reduction of a mathematical integer to the value range of the type (two-complement
wrap-around; signed overflow is taken to wrap as well). -/
def IntKind.wrap (k : IntKind) (x : Int) : Int :=
  if k.signed then (x + 2 ^ (k.bits - 1)) % 2 ^ k.bits - 2 ^ (k.bits - 1)
  else x % 2 ^ k.bits

/-- The values of the type. -/
def IntKind.inRange (k : IntKind) (x : Int) : Prop :=
  if k.signed then -(2 ^ (k.bits - 1)) ≤ x ∧ x < 2 ^ (k.bits - 1)
  else 0 ≤ x ∧ x < 2 ^ k.bits

instance (k : IntKind) (x : Int) : Decidable (k.inRange x) := by
  unfold IntKind.inRange; exact inferInstance

/-- The type `int`. -/
def c_int : IntKind := { bits := 32, signed := true }

/-- The type `unsigned int`. -/
def c_unsigned : IntKind := { bits := 32, signed := false }

/-- Arithmetic of an integer type with itself; `+`, `-`, `*` wrap; `/` truncates toward zero
and is undefined for a zero divisor and, in a signed type, for the least value divided by `-1`
(the quotient is not a value of the type; the division instruction traps). -/
def intArith (k : IntKind) : ElemArith Int Int where
  add a b := some (k.wrap (a + b))
  sub a b := some (k.wrap (a - b))
  mul a b := some (k.wrap (a * b))
  div a b :=
    if b = 0 then none
    else if k.signed = true ∧ a = -(2 ^ (k.bits - 1)) ∧ b = -1 then none
    else some (k.wrap (Int.tdiv a b))

/-- Conversion between integer types. -/
def int_to_int (k : IntKind) (x : Int) : Option Int := some (k.wrap x)

/-- A finite value of type `double`: the number `mant * 2 ^ exp`.  Infinities and NaN are
outside the model. -/
structure Dbl where
  mant : Int
  exp : Int
  deriving DecidableEq

/-- The number denoted by a finite double. -/
def Dbl.value (d : Dbl) : ℚ := d.mant * (2 : ℚ) ^ d.exp

/-- Truncation toward zero of a rational number: the floor of a non-negative number, the
ceiling of a negative one. -/
def truncate_toward_zero (q : ℚ) : Int := if 0 ≤ q then ⌊q⌋ else ⌈q⌉

/-- The integral part of a finite double, computed on its representation. -/
def Dbl.trunc (d : Dbl) : Int :=
  if 0 ≤ d.exp then d.mant * 2 ^ d.exp.toNat else Int.tdiv d.mant (2 ^ (-d.exp).toNat)

/-- Conversion `double` to `int`: the fractional part is discarded; undefined when the
truncated value does not fit `int`. -/
def double_to_int (d : Dbl) : Option Int :=
  let t := d.trunc
  if -(2 ^ 31) ≤ t ∧ t < 2 ^ 31 then some t else none

/-- Conversion `int` to `double`: exact. -/
def int_to_double (a : Int) : Dbl := { mant := a, exp := 0 }

/-- Rounding of the exact value `m * 2 ^ e` to a double: to nearest, ties to even, with a
53-bit significand and no digit below `2 ^ (-1074)` (gradual underflow).  `none` when the
rounded magnitude reaches `2 ^ 1024` (written `(2 ^ 256) ^ 4`): the result is not a finite
double. -/
def round53 (m e : Int) : Option Dbl :=
  let n := m.natAbs
  let k1 : Nat := if n < 2 ^ 53 then 0 else Nat.log2 n + 1 - 53
  let k2 : Nat := (-1074 - e).toNat
  let k := max k1 k2
  let q := n / 2 ^ k
  let r := n % 2 ^ k
  let h := 2 ^ (k - 1)
  let q1 := if k = 0 then q else if h < r ∨ (r = h ∧ q % 2 = 1) then q + 1 else q
  let e1 := e + k
  if 0 ≤ e1 ∧ (2 ^ 256) ^ 4 ≤ q1 * 2 ^ e1.toNat then none
  else some { mant := m.sign * q1, exp := e1 }

/-- Arithmetic of `double` with itself (IEEE 754 binary64, round to nearest even) on finite
doubles.  `none` stands for a result that is not a finite double: the language leaves
overflow and division by zero undefined, IEEE hardware returns an infinity or a NaN there,
and those are outside the values `Dbl` models. -/
def doubleArith : ElemArith Dbl Dbl where
  add a b :=
    let e := min a.exp b.exp
    round53 (a.mant * 2 ^ (a.exp - e).toNat + b.mant * 2 ^ (b.exp - e).toNat) e
  sub a b :=
    let e := min a.exp b.exp
    round53 (a.mant * 2 ^ (a.exp - e).toNat - b.mant * 2 ^ (b.exp - e).toNat) e
  mul a b := round53 (a.mant * b.mant) (a.exp + b.exp)
  div a b :=
    if b.mant = 0 then none
    else
      let s := 56 + Nat.log2 b.mant.natAbs
      let q := a.mant.natAbs * 2 ^ s / b.mant.natAbs
      let sticky := if a.mant.natAbs * 2 ^ s % b.mant.natAbs = 0 then 0 else 1
      round53 (a.mant.sign * b.mant.sign * (2 * q + sticky : Nat)) (a.exp - b.exp - s - 1)

/-- Compound assignment `t OP= r` between different arithmetic types: both operands are
converted to their common type `C`, the operation is carried out in `C`, and the result is
converted back to the type of `t`. -/
def compound_assign {T R C : Type} (toC : T → C) (fromR : R → C) (back : C → Option T)
    (opC : C → C → Option C) (t : T) (r : R) : Option T :=
  (opC (toC t) (fromR r)).bind back

/-- The compound assignments between a left type `T` and a right type `R` with common type `C`. -/
def mixedArith {T R C : Type} (toC : T → C) (fromR : R → C) (back : C → Option T)
    (arC : ElemArith C C) : ElemArith T R where
  add := compound_assign toC fromR back arC.add
  sub := compound_assign toC fromR back arC.sub
  mul := compound_assign toC fromR back arC.mul
  div := compound_assign toC fromR back arC.div

/-- Receiver of type `int`, operand of type `double`: the common type is `double`. -/
def intDoubleArith : ElemArith Int Dbl :=
  mixedArith int_to_double id double_to_int doubleArith

/-- Receiver of type `double`, operand of type `int`: the common type is `double`. -/
def doubleIntArith : ElemArith Dbl Int :=
  mixedArith id int_to_double some doubleArith

/-- The `double` grid of shape `[3, 2]` holding the doubles nearest to
`0.0, 2.6, 5.2, 7.8, 10.4, 13.0`. -/
def doubles_3x2 : smartix Dbl :=
  { _dim := [3, 2],
    _full := [{ mant := 0, exp := 0 }, { mant := 5854679515581645, exp := -51 },
      { mant := 5854679515581645, exp := -50 }, { mant := 8782019273372467, exp := -50 },
      { mant := 5854679515581645, exp := -49 }, { mant := 13, exp := 0 }] }

/-- An `int` grid of shape `[2, 2]` holding `[1, 2, 3, 4]`. -/
def ints_2x2 : smartix Int := { _dim := [2, 2], _full := [1, 2, 3, 4] }

/-- A second `int` grid of shape `[2, 2]`, holding `[5, 6, 7, 8]`. -/
def ints_2x2_b : smartix Int := { _dim := [2, 2], _full := [5, 6, 7, 8] }

/-! ## General facts about the loops -/

theorem Run.toExcept_ok {σ : Type} (r : Run σ) (x : σ) (h : r.toExcept = .ok x) :
    r = .done x := by
  cases r with
  | done s => cases h; rfl
  | stop f s => cases h

namespace smartix

variable {T R L : Type}

theorem getData_eq (self : smartix T) : self.getData = self._full := rfl

theorem ofCopy_eq (self : smartix T) : ofCopy self = self := rfl

/-- The product loop of the dimension-sequence constructor computes the product of the
entries modulo `2 ^ 64`. -/
theorem foldl_size_mul (rest : List Nat) (d0 : Nat) (h0 : d0 < 2 ^ 64) :
    rest.foldl size_mul d0 = (d0 * rest.prod) % 2 ^ 64 := by
  induction rest generalizing d0 with
  | nil => simpa using (Nat.mod_eq_of_lt h0).symm
  | cons d ds ih =>
    have hlt : size_mul d0 d < 2 ^ 64 := Nat.mod_lt _ (by norm_num)
    rw [List.foldl_cons, ih _ hlt, List.prod_cons]
    unfold size_mul SIZE_BITS
    rw [Nat.mod_mul_mod, Nat.mul_assoc]

/-- The grid loop runs to completion when both storages cover the index range and every
element operation is defined; it then rewrites exactly the cells of the range. -/
theorem grid_loop_spec (f : T → R → Option T) (other : smartix R) :
    ∀ (n i : Nat) (self : smartix T),
      i + n ≤ self._full.length → i + n ≤ other._full.length →
      (∀ j t r, i ≤ j → j < i + n → self._full[j]? = some t → other._full[j]? = some r →
        (f t r).isSome) →
      ∃ s : smartix T, grid_loop f other n i self = .done s ∧ s._dim = self._dim ∧
        s._full.length = self._full.length ∧
        ∀ j : Nat, s._full[j]? =
          if i ≤ j ∧ j < i + n then
            (self._full[j]?).bind (fun t => (other._full[j]?).bind (fun r => f t r))
          else self._full[j]? := by
  intro n
  induction n with
  | zero =>
    intro i self _ _ _
    refine ⟨self, rfl, rfl, rfl, ?_⟩
    intro j
    have hno : ¬ (i ≤ j ∧ j < i + 0) := by omega
    rw [if_neg hno]
  | succ n ih =>
    intro i self hs ho hdef
    have his : i < self._full.length := by omega
    have hio : i < other._full.length := by omega
    have hst : self._full[i]? = some self._full[i] := List.getElem?_eq_getElem his
    have hot : other._full[i]? = some other._full[i] := List.getElem?_eq_getElem hio
    obtain ⟨v, hv⟩ := Option.isSome_iff_exists.mp
      (hdef i _ _ (Nat.le_refl i) (by omega) hst hot)
    have hstep : grid_loop f other (n + 1) i self =
        grid_loop f other n (i + 1) { self with _full := self._full.set i v } := by
      simp only [grid_loop, uacc_const, uacc_write, hst, hot, hv, his, if_true]
    have hlen : ({ self with _full := self._full.set i v } : smartix T)._full.length =
        self._full.length := by simp
    obtain ⟨s, hrun, hdim, hl, hcells⟩ := ih (i + 1) { self with _full := self._full.set i v }
      (by rw [hlen]; omega) (by omega)
      (by
        intro j t r h1 h2 h3 h4
        have hne : i ≠ j := by omega
        have h3' : self._full[j]? = some t := by
          simpa [List.getElem?_set, hne] using h3
        exact hdef j t r (by omega) (by omega) h3' h4)
    refine ⟨s, by rw [hstep, hrun], hdim, by rw [hl, hlen], ?_⟩
    intro j
    rw [hcells j]
    by_cases hij : i = j
    · subst hij
      have h1 : ¬ (i + 1 ≤ i ∧ i < i + 1 + n) := by omega
      have h2 : i ≤ i ∧ i < i + (n + 1) := by omega
      simp [h1, h2, List.getElem?_set, his, hst, hot, hv]
    · by_cases hr : i + 1 ≤ j ∧ j < i + 1 + n
      · have h2 : i ≤ j ∧ j < i + (n + 1) := by omega
        simp [hr, h2, List.getElem?_set, hij]
      · have h2 : ¬ (i ≤ j ∧ j < i + (n + 1)) := by omega
        simp [hr, h2, List.getElem?_set, hij]

/-- The grid loop never stops with an assertion failure. -/
theorem grid_loop_no_assertion (f : T → R → Option T) (other : smartix R) :
    ∀ (n i : Nat) (self s : smartix T), grid_loop f other n i self ≠ .stop .assertion s := by
  intro n
  induction n with
  | zero => intro i self s h; simp [grid_loop] at h
  | succ n ih =>
    intro i self s h
    unfold grid_loop at h
    split at h
    · split at h
      · split at h
        · exact ih _ _ _ h
        · simp at h
      · simp at h
    · simp at h

/-- The cell loop runs to completion when the update is defined on every cell, and then
holds the updated cells in order. -/
theorem each_cell_spec (f : T → Option T) :
    ∀ cells : List T, (∀ x ∈ cells, (f x).isSome) →
      ∃ out : List T, each_cell f cells = .done out ∧ out.length = cells.length ∧
        ∀ j : Nat, out[j]? = (cells[j]?).bind f := by
  intro cells
  induction cells with
  | nil => intro _; exact ⟨[], rfl, rfl, by simp⟩
  | cons x xs ih =>
    intro hdef
    obtain ⟨v, hv⟩ := Option.isSome_iff_exists.mp (hdef x (List.mem_cons_self x xs))
    obtain ⟨out, hrun, hlen, hcells⟩ := ih (fun y hy => hdef y (List.mem_cons_of_mem x hy))
    refine ⟨v :: out, by simp [each_cell, hv, hrun], by simp [hlen], ?_⟩
    intro j
    cases j with
    | zero => simp [hv]
    | succ j => simpa using hcells j

end smartix

/-! ## Construction from a dimension sequence -/

/-- C1 (as stated, refuted): for the dimension sequence `[2 ^ 32, 2 ^ 32]` the constructor
builds a grid whose dimensions are that sequence but whose storage does not have the product
of the entries (`2 ^ 64`) as its length: the `size_t` product wrapped to `0`. -/
theorem ofDimensions_product_overflow :
    ¬ ∃ g : smartix Int, smartix.ofDimensions 0 [4294967296, 4294967296] = .ok g ∧
        g.getDimensions = [4294967296, 4294967296] ∧
        g.getData.length = List.prod [4294967296, 4294967296] := by
  rintro ⟨g, hg, -, hlen⟩
  have hcells : g = { _dim := [4294967296, 4294967296], _full := [] } := by
    have h := hg
    simp only [smartix.ofDimensions, List.foldl, size_mul, SIZE_BITS] at h
    cases h
    rfl
  subst hcells
  simp [smartix.getData] at hlen

/-- C1 (amended): for every non-empty sequence `D` of `size_t` values the constructor returns
a grid with `getDimensions() == D` whose storage length is the product of the entries of `D`
reduced modulo `2 ^ 64`; the length is the exact product whenever that product is below
`2 ^ 64`, and the storage is empty whenever some extent is zero. -/
theorem ofDimensions_dimensions_and_length {T : Type} (dflt : T) (D : List Nat)
    (hne : D ≠ []) (hsize : ∀ d ∈ D, d < 2 ^ 64) :
    ∃ g : smartix T, smartix.ofDimensions dflt D = .ok g ∧
      g.getDimensions = D ∧
      g.getData.length = D.prod % 2 ^ 64 ∧
      (D.prod < 2 ^ 64 → g.getData.length = D.prod) ∧
      (0 ∈ D → g.getData = []) := by
  cases D with
  | nil => exact absurd rfl hne
  | cons d0 rest =>
    have h0 : d0 < 2 ^ 64 := hsize d0 (List.mem_cons_self d0 rest)
    have hlen : (List.replicate (rest.foldl size_mul d0) dflt).length =
        (d0 :: rest).prod % 2 ^ 64 := by
      rw [List.length_replicate, smartix.foldl_size_mul rest d0 h0, List.prod_cons]
    refine ⟨{ _dim := d0 :: rest, _full := List.replicate (rest.foldl size_mul d0) dflt },
      rfl, rfl, hlen, ?_, ?_⟩
    · intro hlt
      show (List.replicate (rest.foldl size_mul d0) dflt).length = (d0 :: rest).prod
      rw [hlen, Nat.mod_eq_of_lt hlt]
    · intro hz
      have hprod : (d0 :: rest).prod = 0 := List.prod_eq_zero hz
      have hzero : (List.replicate (rest.foldl size_mul d0) dflt).length = 0 := by
        rw [hlen, hprod]; rfl
      exact List.eq_nil_of_length_eq_zero hzero

/-- C1 (amended), at the dimension sequence `[3, 2]` of the demonstration program. -/
theorem ofDimensions_dimensions_and_length_witness :
    ([3, 2] ≠ ([] : List Nat) ∧ ∀ d ∈ [3, 2], d < 2 ^ 64) ∧
    ∃ g : smartix Int, smartix.ofDimensions 0 [3, 2] = .ok g ∧
      g.getDimensions = [3, 2] ∧
      g.getData.length = [3, 2].prod % 2 ^ 64 ∧
      ([3, 2].prod < 2 ^ 64 → g.getData.length = [3, 2].prod) ∧
      (0 ∈ [3, 2] → g.getData = []) :=
  ⟨⟨by decide, by decide⟩,
    ofDimensions_dimensions_and_length (0 : Int) [3, 2] (by decide) (by decide)⟩

/-! ## Scalar operands -/

namespace smartix

variable {T R L : Type}

/-- With an operand that reads the same value `s` at every cell, the scalar loop runs to
completion when the index range is inside the storage and the element operation is defined on
every cell of the range; it then rewrites exactly the cells of the range. -/
theorem scalar_loop_spec (f : T → R → Option T) (operand : ScalarRef T R) (s : R)
    (hconst : ∀ cells : List T, operand cells = some s) :
    ∀ (n i : Nat) (self : smartix T),
      i + n ≤ self._full.length →
      (∀ j t, i ≤ j → j < i + n → self._full[j]? = some t → (f t s).isSome) →
      ∃ out : smartix T, scalar_loop f operand n i self = .done out ∧ out._dim = self._dim ∧
        out._full.length = self._full.length ∧
        ∀ j : Nat, out._full[j]? =
          if i ≤ j ∧ j < i + n then (self._full[j]?).bind (fun t => f t s)
          else self._full[j]? := by
  intro n
  induction n with
  | zero =>
    intro i self _ _
    refine ⟨self, rfl, rfl, rfl, ?_⟩
    intro j
    have hno : ¬ (i ≤ j ∧ j < i + 0) := by omega
    rw [if_neg hno]
  | succ n ih =>
    intro i self hs hdef
    have his : i < self._full.length := by omega
    have hst : self._full[i]? = some self._full[i] := List.getElem?_eq_getElem his
    obtain ⟨v, hv⟩ := Option.isSome_iff_exists.mp (hdef i _ (Nat.le_refl i) (by omega) hst)
    have hstep : scalar_loop f operand (n + 1) i self =
        scalar_loop f operand n (i + 1) { self with _full := self._full.set i v } := by
      simp only [scalar_loop, uacc_const, uacc_write, hconst, hst, hv, his, if_true]
    have hlen : ({ self with _full := self._full.set i v } : smartix T)._full.length =
        self._full.length := by simp
    obtain ⟨out, hrun, hdim, hl, hcells⟩ := ih (i + 1) { self with _full := self._full.set i v }
      (by rw [hlen]; omega)
      (by
        intro j t h1 h2 h3
        have hne : i ≠ j := by omega
        have h3' : self._full[j]? = some t := by
          simpa [List.getElem?_set, hne] using h3
        exact hdef j t (by omega) (by omega) h3')
    refine ⟨out, by rw [hstep, hrun], hdim, by rw [hl, hlen], ?_⟩
    intro j
    rw [hcells j]
    by_cases hij : i = j
    · subst hij
      have h1 : ¬ (i + 1 ≤ i ∧ i < i + 1 + n) := by omega
      have h2 : i ≤ i ∧ i < i + (n + 1) := by omega
      simp [h1, h2, List.getElem?_set, his, hst, hv]
    · by_cases hr : i + 1 ≤ j ∧ j < i + 1 + n
      · have h2 : i ≤ j ∧ j < i + (n + 1) := by omega
        simp [hr, h2, List.getElem?_set, hij]
      · have h2 : ¬ (i ≤ j ∧ j < i + (n + 1)) := by omega
        simp [hr, h2, List.getElem?_set, hij]

theorem inplace_scalar_eq (o : Op) (ar : ElemArith T R) (self : smartix T)
    (s : ScalarRef T R) :
    inplace_scalar o ar self s = scalar_loop (ar.ap o) s self._full.length 0 self := by
  cases o <;> rfl

theorem alloc_scalar_eq (o : Op) (ar : ElemArith T R) (self : smartix T)
    (s : ScalarRef T R) :
    alloc_scalar o ar self s =
      (inplace_scalar o ar self (fun _ => s self._full)).toExcept := by
  cases o <;> rfl

/-- An in-place scalar operator whose operand reads `s` at every cell completes when the
element operation is defined on every cell; it keeps `_dim` and rewrites every cell. -/
theorem inplace_scalar_spec (o : Op) (ar : ElemArith T R) (self : smartix T)
    (operand : ScalarRef T R) (s : R) (hconst : ∀ cells : List T, operand cells = some s)
    (hdef : ∀ a ∈ self._full, (ar.ap o a s).isSome) :
    ∃ out : smartix T, inplace_scalar o ar self operand = .done out ∧ out._dim = self._dim ∧
      out._full.length = self._full.length ∧
      ∀ j : Nat, out._full[j]? = (self._full[j]?).bind (fun a => ar.ap o a s) := by
  obtain ⟨out, hrun, hd, hl, hcells⟩ :=
    scalar_loop_spec (ar.ap o) operand s hconst self._full.length 0 self (by omega)
      (fun j t _ _ ht => hdef t (List.getElem?_mem ht))
  refine ⟨out, ?_, hd, hl, ?_⟩
  · rw [inplace_scalar_eq, hrun]
  · intro j
    rw [hcells j]
    by_cases hj : j < self._full.length
    · have hr : 0 ≤ j ∧ j < 0 + self._full.length := by omega
      rw [if_pos hr]
    · have hr : ¬ (0 ≤ j ∧ j < 0 + self._full.length) := by omega
      rw [if_neg hr, List.getElem?_eq_none (by omega)]
      rfl

end smartix

/-- Integer arithmetic is defined except for division by zero and, in a signed type, for the
least value divided by `-1`. -/
theorem intArith_defined (k : IntKind) (o : Op) (a b : Int)
    (hb : o = Op.div → b ≠ 0 ∧ ¬ (k.signed = true ∧ a = -(2 ^ (k.bits - 1)) ∧ b = -1)) :
    ((intArith k).ap o a b).isSome := by
  cases o
  · rfl
  · rfl
  · rfl
  · obtain ⟨hne, hmin⟩ := hb rfl
    simp only [ElemArith.ap, intArith, if_neg hne, if_neg hmin]
    rfl

/-- C3 (as stated, refuted): the in-place scalar operators read their operand again at every
cell.  For the `int` grid `A` of shape `[3]` holding `[1, 2, 3]`, `A += A.uacc(0)` (scalar `1`)
leaves `[2, 4, 5]`, not `[2, 3, 4]`; for the grid holding `[2, 4, 6]`, `A /= A.uacc(0)` (scalar
`2`) leaves `[1, 4, 6]`, not `[1, 2, 3]`.  And a non-zero divisor is not enough for integer
division: with a cell holding the least `int`, `A / -1` has no result. -/
theorem scalar_operand_reread_counterexample :
    smartix.inplace_scalar Op.add (intArith c_int) { _dim := [3], _full := [1, 2, 3] }
        (ScalarRef.cell 0) = .done { _dim := [3], _full := [2, 4, 5] } ∧
    smartix.inplace_scalar Op.div (intArith c_int) { _dim := [3], _full := [2, 4, 6] }
        (ScalarRef.cell 0) = .done { _dim := [3], _full := [1, 4, 6] } ∧
    (¬ ∃ A1 : smartix Int,
        smartix.inplace_scalar Op.add (intArith c_int) { _dim := [3], _full := [1, 2, 3] }
          (ScalarRef.cell 0) = .done A1 ∧
        ∀ i : Nat, A1.uacc_const i =
          (({ _dim := [3], _full := [1, 2, 3] } : smartix Int).uacc_const i).bind
            (fun a => (intArith c_int).ap Op.add a 1)) ∧
    smartix.alloc_scalar Op.div (intArith c_int) { _dim := [1], _full := [-2147483648] }
        (ScalarRef.value (-1)) = .error .arithmetic := by
  have hrun : smartix.inplace_scalar Op.add (intArith c_int)
      { _dim := [3], _full := [1, 2, 3] } (ScalarRef.cell 0) =
        .done { _dim := [3], _full := [2, 4, 5] } := by decide
  refine ⟨hrun, by decide, ?_, by rfl⟩
  rintro ⟨A1, hA1, hcells⟩
  rw [hrun] at hA1
  cases hA1
  have h1 := hcells 1
  revert h1
  decide

/-- C3 (amended): for every grid `A`, every scalar operand reading the value `s` at the call
and each operator `OP` of `+ - * /` whose element operation `a OP s` is defined on every cell
`a` of `A` (for integers: under `/`, `s` non-zero and not `-1` against the least value), the
allocating operation `A OP s` succeeds whatever the dimensions of `A` are, also when the operand
is a cell of `A`, and returns a grid with the dimensions and storage length of `A` whose cell
`i` is `A.uacc(i) OP s` at every flat index; the in-place form `A OP= s` leaves exactly the same
dimensions and cells in `A` when the operand is not one of the cells of `A`. -/
theorem scalar_operators_cellwise {T R : Type} (o : Op) (ar : ElemArith T R) (A : smartix T)
    (operand : ScalarRef T R) (s : R) (hread : operand A.getData = some s)
    (hdef : ∀ a ∈ A.getData, (ar.ap o a s).isSome) :
    (∃ X : smartix T, smartix.alloc_scalar o ar A operand = .ok X ∧
      X.getDimensions = A.getDimensions ∧ X.getData.length = A.getData.length ∧
      ∀ i : Nat, X.uacc_const i = (A.uacc_const i).bind (fun a => ar.ap o a s)) ∧
    (∃ A1 : smartix T, smartix.inplace_scalar o ar A (ScalarRef.value s) = .done A1 ∧
      A1.getDimensions = A.getDimensions ∧ A1.getData.length = A.getData.length ∧
      ∀ i : Nat, A1.uacc_const i = (A.uacc_const i).bind (fun a => ar.ap o a s)) := by
  have hread1 : operand A._full = some s := hread
  obtain ⟨X, hX, hXd, hXl, hXc⟩ :=
    smartix.inplace_scalar_spec o ar A (fun _ => operand A._full) s (fun _ => hread1) hdef
  obtain ⟨A1, hA1, hAd, hAl, hAc⟩ :=
    smartix.inplace_scalar_spec o ar A (ScalarRef.value s) s (fun _ => rfl) hdef
  refine ⟨⟨X, ?_, hXd, hXl, hXc⟩, ⟨A1, hA1, hAd, hAl, hAc⟩⟩
  rw [smartix.alloc_scalar_eq, hX]
  rfl

/-- C3 (amended), at the `int` grid of shape `[3]` holding `[2, 4, 6]` divided by its own
first cell (the scalar `2`): the allocating form returns `[1, 2, 3]`, and so does the in-place
form with the scalar `2` held outside the grid. -/
theorem scalar_operators_cellwise_witness :
    ((ScalarRef.cell 0 : ScalarRef Int Int)
        ({ _dim := [3], _full := [2, 4, 6] } : smartix Int).getData = some 2 ∧
      ∀ a ∈ ({ _dim := [3], _full := [2, 4, 6] } : smartix Int).getData,
        ((intArith c_int).ap Op.div a 2).isSome) ∧
    ((∃ X : smartix Int,
        smartix.alloc_scalar Op.div (intArith c_int) { _dim := [3], _full := [2, 4, 6] }
          (ScalarRef.cell 0) = .ok X ∧
        X.getDimensions = ({ _dim := [3], _full := [2, 4, 6] } : smartix Int).getDimensions ∧
        X.getData.length = ({ _dim := [3], _full := [2, 4, 6] } : smartix Int).getData.length ∧
        ∀ i : Nat, X.uacc_const i =
          (({ _dim := [3], _full := [2, 4, 6] } : smartix Int).uacc_const i).bind
            (fun a => (intArith c_int).ap Op.div a 2)) ∧
      (∃ A1 : smartix Int,
        smartix.inplace_scalar Op.div (intArith c_int) { _dim := [3], _full := [2, 4, 6] }
          (ScalarRef.value 2) = .done A1 ∧
        A1.getDimensions = ({ _dim := [3], _full := [2, 4, 6] } : smartix Int).getDimensions ∧
        A1.getData.length = ({ _dim := [3], _full := [2, 4, 6] } : smartix Int).getData.length ∧
        ∀ i : Nat, A1.uacc_const i =
          (({ _dim := [3], _full := [2, 4, 6] } : smartix Int).uacc_const i).bind
            (fun a => (intArith c_int).ap Op.div a 2))) ∧
    smartix.alloc_scalar Op.div (intArith c_int) { _dim := [3], _full := [2, 4, 6] }
        (ScalarRef.cell 0) = .ok { _dim := [3], _full := [1, 2, 3] } ∧
    smartix.inplace_scalar Op.div (intArith c_int) { _dim := [3], _full := [2, 4, 6] }
        (ScalarRef.value 2) = .done { _dim := [3], _full := [1, 2, 3] } :=
  ⟨⟨rfl, fun a _ => intArith_defined c_int Op.div a 2
        (fun _ => ⟨by decide, fun h => absurd h.2.2 (by decide)⟩)⟩,
    scalar_operators_cellwise Op.div (intArith c_int)
      ({ _dim := [3], _full := [2, 4, 6] } : smartix Int) (ScalarRef.cell 0) 2 rfl
      (fun a _ => intArith_defined c_int Op.div a 2
        (fun _ => ⟨by decide, fun h => absurd h.2.2 (by decide)⟩)),
    by rfl, by decide⟩

/-- C10: for every grid `A` and scalar `s` whose conversion to the element type of `A` is the
value `v`, the scalar assignment `A = s` completes, leaves `getDimensions()` and the storage
length unchanged, and makes every cell of the storage equal to `v`. -/
theorem scalar_assignment_fills {T R : Type} (conv : R → Option T) (A : smartix T) (s : R)
    (v : T) (hconv : conv s = some v) :
    ∃ A1 : smartix T, smartix.op_assign_scalar conv A s = .done A1 ∧
      A1.getDimensions = A.getDimensions ∧
      A1.getData.length = A.getData.length ∧
      (∀ x ∈ A1.getData, x = v) ∧
      ∀ i : Nat, i < A.getData.length → A1.uacc_const i = some v := by
  obtain ⟨cells, hrun, hlen, hcells⟩ :=
    smartix.each_cell_spec (fun _ => conv s) A._full (fun _ _ => by simp [hconv])
  have hcell : ∀ i : Nat, i < A._full.length → cells[i]? = some v := by
    intro i hi
    rw [hcells i, List.getElem?_eq_getElem hi]
    simpa using hconv
  refine ⟨{ A with _full := cells }, ?_, rfl, hlen, ?_, hcell⟩
  · unfold smartix.op_assign_scalar
    rw [hrun]
    rfl
  · intro x hx
    change x ∈ cells at hx
    obtain ⟨i, hi, hxi⟩ := List.getElem_of_mem hx
    have h := hcell i (by rw [← hlen]; exact hi)
    rw [List.getElem?_eq_getElem hi, hxi] at h
    exact Option.some.inj h

/-- C10, at `A.assign(5)` for the `int` grid of shape `[2, 2]` holding `[1, 2, 3, 4]`:
every cell becomes `5`. -/
theorem scalar_assignment_fills_witness :
    int_to_int c_int 5 = some 5 ∧
    (∃ A1 : smartix Int,
      smartix.op_assign_scalar (int_to_int c_int) { _dim := [2, 2], _full := [1, 2, 3, 4] } 5 =
        .done A1 ∧
      A1.getDimensions = ({ _dim := [2, 2], _full := [1, 2, 3, 4] } : smartix Int).getDimensions ∧
      A1.getData.length =
        ({ _dim := [2, 2], _full := [1, 2, 3, 4] } : smartix Int).getData.length ∧
      (∀ x ∈ A1.getData, x = 5) ∧
      ∀ i : Nat, i < ({ _dim := [2, 2], _full := [1, 2, 3, 4] } : smartix Int).getData.length →
        A1.uacc_const i = some 5) ∧
    smartix.op_assign_scalar (int_to_int c_int) { _dim := [2, 2], _full := [1, 2, 3, 4] } 5 =
      .done { _dim := [2, 2], _full := [5, 5, 5, 5] } :=
  ⟨by decide,
    scalar_assignment_fills (int_to_int c_int)
      ({ _dim := [2, 2], _full := [1, 2, 3, 4] } : smartix Int) 5 5 (by decide),
    by decide⟩

/-! ## Grid operands: the shape assertion -/

namespace smartix

variable {T R L : Type}

theorem inplace_grid_eq (o : Op) (ar : ElemArith T R) (self : smartix T) (other : smartix R) :
    inplace_grid o ar self other =
      if self._dim = other.getDimensions then
        grid_loop (ar.ap o) other self._full.length 0 self
      else .stop .assertion self := by
  cases o <;> rfl

theorem alloc_grid_eq (o : Op) (ar : ElemArith T R) (self : smartix T) (other : smartix R) :
    alloc_grid o ar self other =
      if self._dim = other.getDimensions then (inplace_grid o ar self other).toExcept
      else .error .assertion := by
  cases o <;> rfl

/-- A guarded grid loop stops on the assertion exactly when the dimensions differ, and then
the receiver is as it was. -/
theorem guarded_loop_assertion (f : T → R → Option T) (self : smartix T) (other : smartix R) :
    ((if self._dim = other.getDimensions then grid_loop f other self._full.length 0 self
      else Run.stop Fault.assertion self) = Run.stop Fault.assertion self ↔
        self.getDimensions ≠ other.getDimensions) ∧
    ∀ s : smartix T,
      (if self._dim = other.getDimensions then grid_loop f other self._full.length 0 self
        else Run.stop Fault.assertion self) = Run.stop Fault.assertion s → s = self := by
  by_cases h : self._dim = other.getDimensions
  · simp only [if_pos h]
    refine ⟨⟨fun hs => absurd hs (grid_loop_no_assertion f other _ _ _ _), fun hne => absurd h hne⟩,
      fun s hs => absurd hs (grid_loop_no_assertion f other _ _ _ _)⟩
  · rw [if_neg h]
    refine ⟨⟨fun _ => h, fun _ => rfl⟩, fun s hs => ?_⟩
    cases hs
    rfl

end smartix

/-- C4: for all grids `A` and `B` every grid-to-grid operation (the in-place operators, the
allocating operators, the cross-type and the same-type grid assignment) stops on the shape
assertion if and only if `A.getDimensions()` differs from `B.getDimensions()`; when an
in-place operation or an assignment stops on it, the receiver `A` is exactly as before (no cell
written, dimensions untouched).  The operand `B` is only read by every operation, and the
allocating operators write to a fresh copy, never to `A`. -/
theorem shape_mismatch_iff {T R : Type} (o : Op) (ar : ElemArith T R) (conv : R → Option T)
    (A : smartix T) (B : smartix R) (B0 : smartix T) :
    (smartix.inplace_grid o ar A B = .stop .assertion A ↔
      A.getDimensions ≠ B.getDimensions) ∧
    (∀ s : smartix T, smartix.inplace_grid o ar A B = .stop .assertion s → s = A) ∧
    (smartix.alloc_grid o ar A B = .error .assertion ↔
      A.getDimensions ≠ B.getDimensions) ∧
    (smartix.op_assign_grid conv A B = .stop .assertion A ↔
      A.getDimensions ≠ B.getDimensions) ∧
    (∀ s : smartix T, smartix.op_assign_grid conv A B = .stop .assertion s → s = A) ∧
    (smartix.op_assign A B0 = .stop .assertion A ↔ A.getDimensions ≠ B0.getDimensions) ∧
    (∀ s : smartix T, smartix.op_assign A B0 = .stop .assertion s → s = A) := by
  have hin := smartix.guarded_loop_assertion (ar.ap o) A B
  have hcross := smartix.guarded_loop_assertion (fun _ r => conv r) A B
  refine ⟨?_, ?_, ?_, hcross.1, hcross.2, ?_, ?_⟩
  · rw [smartix.inplace_grid_eq]; exact hin.1
  · rw [smartix.inplace_grid_eq]; exact hin.2
  · rw [smartix.alloc_grid_eq, smartix.inplace_grid_eq]
    by_cases h : A._dim = B.getDimensions
    · simp only [if_pos h]
      constructor
      · intro hs
        cases hrun : smartix.grid_loop (ar.ap o) B A._full.length 0 A with
        | done s => rw [hrun] at hs; cases hs
        | stop f s =>
          rw [hrun] at hs
          simp only [Run.toExcept, Except.error.injEq] at hs
          subst hs
          exact absurd hrun (smartix.grid_loop_no_assertion _ _ _ _ _ _)
      · intro hne
        exact absurd h hne
    · rw [if_neg h]
      exact ⟨fun _ => h, fun _ => rfl⟩
  · unfold smartix.op_assign
    by_cases h : A._dim = B0.getDimensions
    · rw [if_pos h]
      exact ⟨fun hs => (by cases hs), fun hne => absurd h hne⟩
    · rw [if_neg h]
      exact ⟨fun _ => h, fun _ => rfl⟩
  · intro s hs
    unfold smartix.op_assign at hs
    by_cases h : A._dim = B0.getDimensions
    · rw [if_pos h] at hs; cases hs
    · rw [if_neg h] at hs; cases hs; rfl

/-- Grids of shape `[2, 3]` and `[3, 2]` built by the dimension-sequence constructor: every
grid-to-grid operation stops on the assertion and the receiver keeps its six zero cells. -/
theorem shape_mismatch_2x3_3x2 :
    ∃ A B : smartix Int, smartix.ofDimensions 0 [2, 3] = .ok A ∧
      smartix.ofDimensions 0 [3, 2] = .ok B ∧
      (∀ o : Op, smartix.inplace_grid o (intArith c_int) A B = .stop .assertion A ∧
        smartix.alloc_grid o (intArith c_int) A B = .error .assertion) ∧
      smartix.op_assign A B = .stop .assertion A ∧
      smartix.op_assign_grid (int_to_int c_int) A B = .stop .assertion A ∧
      A.getData = [0, 0, 0, 0, 0, 0] :=
  ⟨{ _dim := [2, 3], _full := [0, 0, 0, 0, 0, 0] }, { _dim := [3, 2], _full := [0, 0, 0, 0, 0, 0] },
    rfl, rfl, fun o => by cases o <;> exact ⟨rfl, rfl⟩, rfl, rfl, rfl⟩

/-! ## Grid operands: cell-wise results -/

namespace smartix

variable {T R L : Type}

/-- An in-place grid operator completes when the dimensions agree, the operand storage is at
least as long as the receiver storage and the element operation is defined on every pair of
cells; it keeps `_dim` and rewrites every cell of the receiver. -/
theorem inplace_grid_spec (o : Op) (ar : ElemArith T R) (self : smartix T) (other : smartix R)
    (hdim : self.getDimensions = other.getDimensions)
    (hlen : self._full.length ≤ other._full.length)
    (hdef : ∀ (j : Nat) (a : T) (b : R), self._full[j]? = some a → other._full[j]? = some b →
      (ar.ap o a b).isSome) :
    ∃ out : smartix T, inplace_grid o ar self other = .done out ∧ out._dim = self._dim ∧
      out._full.length = self._full.length ∧
      ∀ j : Nat, out._full[j]? =
        (self._full[j]?).bind (fun a => (other._full[j]?).bind (fun b => ar.ap o a b)) := by
  obtain ⟨out, hrun, hd, hl, hcells⟩ :=
    grid_loop_spec (ar.ap o) other self._full.length 0 self (by omega) (by omega)
      (fun j a b _ _ ha hb => hdef j a b ha hb)
  have hdim1 : self._dim = other.getDimensions := hdim
  refine ⟨out, ?_, hd, hl, ?_⟩
  · rw [inplace_grid_eq, if_pos hdim1, hrun]
  · intro j
    rw [hcells j]
    by_cases hj : j < self._full.length
    · have hr : 0 ≤ j ∧ j < 0 + self._full.length := by omega
      rw [if_pos hr]
    · have hr : ¬ (0 ≤ j ∧ j < 0 + self._full.length) := by omega
      rw [if_neg hr, List.getElem?_eq_none (by omega)]
      rfl

/-- An allocating grid operator, under the conditions of `inplace_grid_spec`, returns the
grid that the in-place operator leaves in a copy of the receiver. -/
theorem alloc_grid_spec (o : Op) (ar : ElemArith T R) (self : smartix T) (other : smartix R)
    (hdim : self.getDimensions = other.getDimensions)
    (hlen : self._full.length ≤ other._full.length)
    (hdef : ∀ (j : Nat) (a : T) (b : R), self._full[j]? = some a → other._full[j]? = some b →
      (ar.ap o a b).isSome) :
    ∃ out : smartix T, alloc_grid o ar self other = .ok out ∧ out._dim = self._dim ∧
      out._full.length = self._full.length ∧
      ∀ j : Nat, out._full[j]? =
        (self._full[j]?).bind (fun a => (other._full[j]?).bind (fun b => ar.ap o a b)) := by
  obtain ⟨out, hrun, hd, hl, hcells⟩ := inplace_grid_spec o ar self other hdim hlen hdef
  have hdim1 : self._dim = other.getDimensions := hdim
  refine ⟨out, ?_, hd, hl, hcells⟩
  rw [alloc_grid_eq, if_pos hdim1, hrun]
  rfl

end smartix

/-! ## The convenience constructors -/

/-- C5 (the code departs from it): `smartix<int>(2, 3)`, `smartix<int>(2, 3, 4)` and
`smartix<int>(2, 3, 4, 5)` report the dimensions `[0, 0]`, `[0, 0, 0]` and `[0, 0, 0, 0]`, not
the extents passed, while their storages hold 6, 24 and 120 cells: the storage length is not
the product of the recorded dimensions. -/
theorem convenience_constructors_drop_extents :
    (smartix.of2 (0 : Int) 2 3).getDimensions = [0, 0] ∧
    (smartix.of2 (0 : Int) 2 3).getData.length = 6 ∧
    (smartix.of3 (0 : Int) 2 3 4).getDimensions = [0, 0, 0] ∧
    (smartix.of3 (0 : Int) 2 3 4).getData.length = 24 ∧
    (smartix.of4 (0 : Int) 2 3 4 5).getDimensions = [0, 0, 0, 0] ∧
    (smartix.of4 (0 : Int) 2 3 4 5).getData.length = 120 ∧
    (smartix.of2 (0 : Int) 2 3).getDimensions ≠ [2, 3] ∧
    (smartix.of2 (0 : Int) 2 3).getData.length ≠ (smartix.of2 (0 : Int) 2 3).getDimensions.prod := by
  refine ⟨rfl, ?_, rfl, ?_, rfl, ?_, by decide, ?_⟩ <;>
    simp [smartix.of2, smartix.of3, smartix.of4, smartix.getData, smartix.getDimensions, size_mul,
      SIZE_BITS]

/-! ## Allocating operators with a grid operand: cell-wise results -/

namespace smartix

variable {T R L : Type}

/-- A grid loop that runs to completion has rewritten exactly the cells of its index range,
each with the element operation applied to the two cells of that index. -/
theorem grid_loop_done (f : T → R → Option T) (other : smartix R) :
    ∀ (n i : Nat) (self out : smartix T),
      grid_loop f other n i self = .done out → i + n ≤ self._full.length →
      out._dim = self._dim ∧ out._full.length = self._full.length ∧
        ∀ j : Nat, out._full[j]? =
          if i ≤ j ∧ j < i + n then
            (self._full[j]?).bind (fun t => (other._full[j]?).bind (fun r => f t r))
          else self._full[j]? := by
  intro n
  induction n with
  | zero =>
    intro i self out h _
    simp only [grid_loop, Run.done.injEq] at h
    subst h
    refine ⟨rfl, rfl, ?_⟩
    intro j
    have hno : ¬ (i ≤ j ∧ j < i + 0) := by omega
    rw [if_neg hno]
  | succ n ih =>
    intro i self out h hs
    have his : i < self._full.length := by omega
    have hst : self._full[i]? = some self._full[i] := List.getElem?_eq_getElem his
    unfold grid_loop at h
    split at h
    · rename_i r t hr ht
      split at h
      · rename_i v hv
        have hw : self.uacc_write i v = some { self with _full := self._full.set i v } := by
          unfold uacc_write
          rw [if_pos his]
        rw [hw] at h
        have hlen : ({ self with _full := self._full.set i v } : smartix T)._full.length =
            self._full.length := by simp
        obtain ⟨hd, hl, hcells⟩ := ih (i + 1) _ out h (by rw [hlen]; omega)
        have hr1 : other._full[i]? = some r := hr
        have ht1 : self._full[i]? = some t := ht
        refine ⟨hd, by rw [hl, hlen], ?_⟩
        intro j
        rw [hcells j]
        by_cases hij : i = j
        · subst hij
          have h1 : ¬ (i + 1 ≤ i ∧ i < i + 1 + n) := by omega
          have h2 : i ≤ i ∧ i < i + (n + 1) := by omega
          simp [h1, h2, List.getElem?_set, his, ht1, hr1, hv]
        · by_cases hrange : i + 1 ≤ j ∧ j < i + 1 + n
          · have h2 : i ≤ j ∧ j < i + (n + 1) := by omega
            simp [hrange, h2, List.getElem?_set, hij]
          · have h2 : ¬ (i ≤ j ∧ j < i + (n + 1)) := by omega
            simp [hrange, h2, List.getElem?_set, hij]
      · cases h
    · cases h

/-- Whenever an allocating grid operator returns a grid, that grid has the dimensions and the
storage length of the receiver and holds at every index the element operation applied to the
two cells of that index. -/
theorem alloc_grid_ok (o : Op) (ar : ElemArith T R) (self : smartix T) (other : smartix R)
    (out : smartix T) (h : alloc_grid o ar self other = .ok out) :
    out._dim = self._dim ∧ out._full.length = self._full.length ∧
      ∀ j : Nat, out._full[j]? =
        (self._full[j]?).bind (fun a => (other._full[j]?).bind (fun b => ar.ap o a b)) := by
  rw [alloc_grid_eq] at h
  by_cases hdim : self._dim = other.getDimensions
  · rw [if_pos hdim] at h
    have hrun := Run.toExcept_ok _ _ h
    rw [inplace_grid_eq, if_pos hdim] at hrun
    obtain ⟨hd, hl, hcells⟩ :=
      grid_loop_done (ar.ap o) other self._full.length 0 self out hrun (by omega)
    refine ⟨hd, hl, ?_⟩
    intro j
    rw [hcells j]
    by_cases hj : j < self._full.length
    · have hr : 0 ≤ j ∧ j < 0 + self._full.length := by omega
      rw [if_pos hr]
    · have hr : ¬ (0 ≤ j ∧ j < 0 + self._full.length) := by omega
      rw [if_neg hr, List.getElem?_eq_none (by omega)]
      rfl
  · rw [if_neg hdim] at h
    cases h

end smartix

/-- C2 (as stated, refuted): the absence of a zero divisor does not make integer division
defined.  For the `int` grids `A` and `B` of shape `[1]` holding the least `int` and `-1`,
`A / B` divides `-2147483648` by `-1`, whose quotient is no `int`: the run ends in the
arithmetic fault and no result grid exists. -/
theorem grid_division_least_by_minus_one :
    ({ _dim := [1], _full := [-2147483648] } : smartix Int).getDimensions =
      ({ _dim := [1], _full := [-1] } : smartix Int).getDimensions ∧
    (∀ b ∈ ({ _dim := [1], _full := [-1] } : smartix Int).getData, b ≠ 0) ∧
    smartix.alloc_grid Op.div (intArith c_int) { _dim := [1], _full := [-2147483648] }
      { _dim := [1], _full := [-1] } = .error .arithmetic ∧
    ¬ ∃ X : smartix Int,
      smartix.alloc_grid Op.div (intArith c_int) { _dim := [1], _full := [-2147483648] }
        { _dim := [1], _full := [-1] } = .ok X := by
  have hrun : smartix.alloc_grid Op.div (intArith c_int)
      ({ _dim := [1], _full := [-2147483648] } : smartix Int)
      { _dim := [1], _full := [-1] } = .error .arithmetic := by rfl
  refine ⟨rfl, by decide, hrun, ?_⟩
  rintro ⟨X, hX⟩
  rw [hrun] at hX
  cases hX

/-- C2 (amended): for all grids `A` and `B` of the same element type with identical dimensions
and each allocating grid operator `OP` of `+ - * /`: whenever `A OP B` returns a grid `R`, then
`R.getDimensions() == A.getDimensions()`, `R` has the storage length of `A`, and
`R.uacc(i) == A.uacc(i) OP B.uacc(i)` at every flat index; and `A OP B` does return a grid
whenever the storage of `B` is at least as long as that of `A` (every read of `B` is in range)
and the element operation is defined on every pair of cells (for integer division: no zero
divisor and no least value divided by `-1`). -/
theorem alloc_grid_cellwise {T : Type} (o : Op) (ar : ElemArith T T) (A B : smartix T)
    (hdim : A.getDimensions = B.getDimensions) :
    (∀ X : smartix T, smartix.alloc_grid o ar A B = .ok X →
      X.getDimensions = A.getDimensions ∧ X.getData.length = A.getData.length ∧
      ∀ i : Nat, X.uacc_const i =
        (A.uacc_const i).bind (fun a => (B.uacc_const i).bind (fun b => ar.ap o a b))) ∧
    (A.getData.length ≤ B.getData.length →
      (∀ (i : Nat) (a b : T), A.uacc_const i = some a → B.uacc_const i = some b →
        (ar.ap o a b).isSome) →
      ∃ X : smartix T, smartix.alloc_grid o ar A B = .ok X) := by
  refine ⟨fun X hX => smartix.alloc_grid_ok o ar A B X hX, ?_⟩
  intro hlen hdef
  obtain ⟨X, hX, -, -, -⟩ := smartix.alloc_grid_spec o ar A B hdim hlen hdef
  exact ⟨X, hX⟩

/-- C2 (amended), at the `int` grids of shape `[2, 2]` holding `[1, 2, 3, 4]` and
`[5, 6, 7, 8]`: the four operators return `[6, 8, 10, 12]`, `[-4, -4, -4, -4]`,
`[5, 12, 21, 32]` and `[0, 0, 0, 0]`. -/
theorem alloc_grid_cellwise_witness :
    ints_2x2.getDimensions = ints_2x2_b.getDimensions ∧
    ((∀ X : smartix Int, smartix.alloc_grid Op.div (intArith c_int) ints_2x2 ints_2x2_b = .ok X →
        X.getDimensions = ints_2x2.getDimensions ∧ X.getData.length = ints_2x2.getData.length ∧
        ∀ i : Nat, X.uacc_const i =
          (ints_2x2.uacc_const i).bind (fun a => (ints_2x2_b.uacc_const i).bind
            (fun b => (intArith c_int).ap Op.div a b))) ∧
      (ints_2x2.getData.length ≤ ints_2x2_b.getData.length →
        (∀ (i : Nat) (a b : Int), ints_2x2.uacc_const i = some a →
          ints_2x2_b.uacc_const i = some b → ((intArith c_int).ap Op.div a b).isSome) →
        ∃ X : smartix Int,
          smartix.alloc_grid Op.div (intArith c_int) ints_2x2 ints_2x2_b = .ok X)) ∧
    smartix.alloc_grid Op.add (intArith c_int) ints_2x2 ints_2x2_b =
      .ok { _dim := [2, 2], _full := [6, 8, 10, 12] } ∧
    smartix.alloc_grid Op.sub (intArith c_int) ints_2x2 ints_2x2_b =
      .ok { _dim := [2, 2], _full := [-4, -4, -4, -4] } ∧
    smartix.alloc_grid Op.mul (intArith c_int) ints_2x2 ints_2x2_b =
      .ok { _dim := [2, 2], _full := [5, 12, 21, 32] } ∧
    smartix.alloc_grid Op.div (intArith c_int) ints_2x2 ints_2x2_b =
      .ok { _dim := [2, 2], _full := [0, 0, 0, 0] } :=
  ⟨rfl, alloc_grid_cellwise Op.div (intArith c_int) ints_2x2 ints_2x2_b rfl,
    by rfl, by rfl, by rfl, by rfl⟩

/-! ## Scalar-left operators -/

namespace smartix

variable {T R L : Type}

theorem scalar_left_eq (o : Op) (conv : L → Option T) (ar : ElemArith T T) (dflt : T) (lhand : L)
    (src : smartix T) :
    scalar_left o conv ar dflt lhand src =
      ((ofDimensions dflt src.getDimensions).bind fun t0 =>
        ((op_assign_scalar conv t0 lhand).toExcept).bind fun t1 =>
          (inplace_grid o ar t1 src).toExcept) := by
  cases o <;> rfl

/-- On a grid whose dimension sequence is a non-empty sequence of `size_t` values and whose
storage length is the wrapped product of the dimensions, a scalar-left operator returns a grid
of the same dimensions and storage length whose cell `j` is `v OP src[j]`, where `v` is the
scalar converted to the element type. -/
theorem scalar_left_spec (o : Op) (conv : L → Option T) (ar : ElemArith T T) (dflt : T)
    (lhand : L) (v : T) (src : smartix T)
    (hne : src._dim ≠ []) (hsize : ∀ d ∈ src._dim, d < 2 ^ 64)
    (hlen : src._full.length = src._dim.prod % 2 ^ 64)
    (hconv : conv lhand = some v)
    (hdef : ∀ b ∈ src._full, (ar.ap o v b).isSome) :
    ∃ out : smartix T, scalar_left o conv ar dflt lhand src = .ok out ∧ out._dim = src._dim ∧
      out._full.length = src._full.length ∧
      ∀ j : Nat, out._full[j]? = (src._full[j]?).bind (fun b => ar.ap o v b) := by
  obtain ⟨dims, cells⟩ := src
  cases dims with
  | nil => exact absurd rfl hne
  | cons d0 rest =>
    have h0 : d0 < 2 ^ 64 := hsize d0 (List.mem_cons_self d0 rest)
    have htotal : rest.foldl size_mul d0 = cells.length := by
      rw [foldl_size_mul rest d0 h0, ← List.prod_cons]
      exact hlen.symm
    obtain ⟨filled, hfill, hfl, hfc⟩ :=
      each_cell_spec (fun _ => conv lhand) (List.replicate (rest.foldl size_mul d0) dflt)
        (fun _ _ => by simp [hconv])
    have hfl1 : filled.length = cells.length := by
      rw [hfl, List.length_replicate, htotal]
    have hfv : ∀ (j : Nat) (a : T), filled[j]? = some a → a = v := by
      intro j a ha
      rw [hfc j] at ha
      cases hr : (List.replicate (rest.foldl size_mul d0) dflt)[j]? with
      | none => rw [hr] at ha; cases ha
      | some x =>
        rw [hr] at ha
        have hv : conv lhand = some a := ha
        rw [hconv] at hv
        exact (Option.some.inj hv).symm
    obtain ⟨out, hrun, hd, hl, hcells⟩ :=
      inplace_grid_spec o ar { _dim := d0 :: rest, _full := filled }
        { _dim := d0 :: rest, _full := cells } rfl (by simp [hfl1])
        (by
          intro j a b ha hb
          have hav : a = v := hfv j a ha
          subst hav
          exact hdef b (List.getElem?_mem hb))
    refine ⟨out, ?_, hd, by rw [hl]; exact hfl1, ?_⟩
    · rw [scalar_left_eq]
      simp only [ofDimensions, getDimensions, op_assign_scalar, with_cells, hfill, Run.toExcept,
        Except.bind, hrun]
    · intro j
      rw [hcells j]
      by_cases hj : j < cells.length
      · have hfj : filled[j]? = some filled[j] := List.getElem?_eq_getElem (by omega)
        have hvj : filled[j] = v := hfv j _ hfj
        simp only [hfj, hvj, Option.some_bind]
      · have hn1 : filled[j]? = none := List.getElem?_eq_none (by omega)
        have hn2 : cells[j]? = none := List.getElem?_eq_none (by omega)
        simp only [hn1, hn2, Option.none_bind]

end smartix

/-- C6 (the code departs from it): for `G = smartix<int>(1, 2)` with cells `[1, 2]` the
scalar-left operation `3 - G` builds its result from `G.getDimensions() == [0, 0]`, so the
result has an empty storage: `R.uacc(0)` does not exist, whereas `3 - G.uacc(0)` is `2`. -/
theorem scalar_left_convenience_empty_result :
    ∃ G : smartix Int,
      ((smartix.of2 (0 : Int) 1 2).uacc_write 0 1).bind (fun g => g.uacc_write 1 2) = some G ∧
      G.getData = [1, 2] ∧
      smartix.scalar_left Op.sub (int_to_int c_int) (intArith c_int) 0 3 G =
        .ok { _dim := [0, 0], _full := [] } ∧
      (G.uacc_const 0).bind (fun b => (intArith c_int).ap Op.sub 3 b) = some 2 :=
  ⟨{ _dim := [0, 0], _full := [1, 2] }, by decide, rfl, rfl, by decide⟩

/-- The demonstration of scalar-left subtraction on a well-formed grid: the `double` grid of
shape `[1, 2]` holding `[1.0, 2.0]` gives `3 - G == [2.0, 1.0]`. -/
theorem scalar_left_sub_doubles :
    smartix.scalar_left Op.sub (fun n : Int => some (int_to_double n)) doubleArith
        { mant := 0, exp := 0 } 3
        { _dim := [1, 2], _full := [{ mant := 1, exp := 0 }, { mant := 2, exp := 0 }] } =
      .ok { _dim := [1, 2], _full := [{ mant := 2, exp := 0 }, { mant := 1, exp := 0 }] } := by
  rfl

/-! ## Round trip of addition and subtraction on integer grids -/

namespace smartix

end smartix

/-- The integral part computed on the representation is the truncation toward zero of the
number denoted. -/
theorem Dbl.trunc_eq (d : Dbl) : d.trunc = truncate_toward_zero d.value := by
  obtain ⟨m, e⟩ := d
  unfold Dbl.trunc Dbl.value truncate_toward_zero
  simp only
  by_cases he : 0 ≤ e
  · rw [if_pos he]
    have hv : (m : ℚ) * (2 : ℚ) ^ e = ((m * 2 ^ e.toNat : Int) : ℚ) := by
      conv_lhs => rw [← Int.toNat_of_nonneg he, zpow_natCast]
      push_cast
      rfl
    rw [hv]
    split
    · exact (Int.floor_intCast _).symm
    · exact (Int.ceil_intCast _).symm
  · rw [if_neg he]
    have hk : e = -((-e).toNat : Int) := by
      rw [Int.toNat_of_nonneg (by omega)]; ring
    have hv : (m : ℚ) * (2 : ℚ) ^ e = (m : ℚ) / ((2 ^ (-e).toNat : Nat) : ℚ) := by
      conv_lhs => rw [hk, zpow_neg, zpow_natCast]
      push_cast
      rfl
    have hpos : (0 : ℚ) < ((2 ^ (-e).toNat : Nat) : ℚ) := by positivity
    have hcast : ((2 : Int) ^ (-e).toNat) = ((2 ^ (-e).toNat : Nat) : Int) := by push_cast; rfl
    rw [hv, hcast]
    by_cases hm : 0 ≤ m
    · have hq : (0 : ℚ) ≤ (m : ℚ) / ((2 ^ (-e).toNat : Nat) : ℚ) :=
        div_nonneg (by exact_mod_cast hm) hpos.le
      rw [if_pos hq, Rat.floor_intCast_div_natCast, Int.tdiv_eq_ediv hm (by positivity)]
    · have hq : ¬ (0 : ℚ) ≤ (m : ℚ) / ((2 ^ (-e).toNat : Nat) : ℚ) := by
        rw [not_le]
        exact div_neg_of_neg_of_pos (by exact_mod_cast (not_le.mp hm)) hpos
      rw [if_neg hq]
      have hneg : (m : ℚ) / ((2 ^ (-e).toNat : Nat) : ℚ) =
          -(((-m : Int) : ℚ) / ((2 ^ (-e).toNat : Nat) : ℚ)) := by
        push_cast; ring
      rw [hneg, Int.ceil_neg, Rat.floor_intCast_div_natCast]
      have hm2 : m = -(-m) := by ring
      conv_lhs => rw [hm2, Int.neg_tdiv, Int.tdiv_eq_ediv (by omega) (by positivity)]

namespace smartix

variable {T R L : Type}

/-- The range construction converts the cells one by one, in order. -/
theorem container_cast_spec (conv : R → Option T) (g : R → T) :
    ∀ cells : List R, (∀ x ∈ cells, conv x = some (g x)) →
      container_cast conv cells = some (cells.map g) := by
  intro cells
  induction cells with
  | nil => intro _; rfl
  | cons x xs ih =>
    intro h
    have hx : conv x = some (g x) := h x (List.mem_cons_self x xs)
    have hxs := ih (fun y hy => h y (List.mem_cons_of_mem x hy))
    simp only [container_cast, hx, hxs, List.map_cons]

end smartix

/-- C8: for every grid `S` of finite `double` values whose truncations fit the range of `int`,
the converting constructor `smartix<int>(S)` returns a grid with the dimensions of `S`, the
storage length of `S`, and at every flat index the cell of `S` truncated toward zero. -/
theorem converting_constructor_truncates (S : smartix Dbl)
    (hfit : ∀ d ∈ S.getData, -(2 ^ 31) ≤ truncate_toward_zero d.value ∧
      truncate_toward_zero d.value < 2 ^ 31) :
    ∃ G : smartix Int, smartix.ofGrid double_to_int S = .ok G ∧
      G.getDimensions = S.getDimensions ∧
      G.getData.length = S.getData.length ∧
      ∀ i : Nat, G.uacc_const i =
        (S.uacc_const i).map (fun d => truncate_toward_zero d.value) := by
  have hconv : ∀ d ∈ S._full, double_to_int d = some (truncate_toward_zero d.value) := by
    intro d hd
    have h := hfit d hd
    rw [← Dbl.trunc_eq] at h ⊢
    unfold double_to_int
    simp only [h, and_self, if_true]
  have hcast := smartix.container_cast_spec double_to_int
    (fun d => truncate_toward_zero d.value) S._full hconv
  refine ⟨{ _dim := S._dim, _full := S._full.map (fun d => truncate_toward_zero d.value) },
    ?_, rfl, ?_, ?_⟩
  · unfold smartix.ofGrid
    rw [smartix.getData_eq, hcast]
    rfl
  · simp [smartix.getData]
  · intro i
    simp [smartix.uacc_const]

/-- C8, at the `double` grid of shape `[3, 2]` holding `[0.0, 2.6, 5.2, 7.8, 10.4, 13.0]`
(the doubles nearest to these decimals): the `int` grid holds `[0, 2, 5, 7, 10, 13]`. -/
theorem converting_constructor_truncates_witness :
    (∀ d ∈ doubles_3x2.getData, -(2 ^ 31) ≤ truncate_toward_zero d.value ∧
      truncate_toward_zero d.value < 2 ^ 31) ∧
    (∃ G : smartix Int, smartix.ofGrid double_to_int doubles_3x2 = .ok G ∧
      G.getDimensions = doubles_3x2.getDimensions ∧
      G.getData.length = doubles_3x2.getData.length ∧
      ∀ i : Nat, G.uacc_const i =
        (doubles_3x2.uacc_const i).map (fun d => truncate_toward_zero d.value)) ∧
    smartix.ofGrid double_to_int doubles_3x2 =
      .ok { _dim := [3, 2], _full := [0, 2, 5, 7, 10, 13] } :=
  have hfit : ∀ d ∈ doubles_3x2.getData, -(2 ^ 31) ≤ truncate_toward_zero d.value ∧
      truncate_toward_zero d.value < 2 ^ 31 := by
    intro d hd
    rw [← Dbl.trunc_eq]
    revert d
    decide
  ⟨hfit, converting_constructor_truncates doubles_3x2 hfit, by rfl⟩

/-! ## In-place operators between grids of different element types -/

/-- C9 (as stated, refuted): with the `int` grid `A` of shape `[1]` holding `[3]` and the
`double` grid `B` of shape `[1]` holding `[0.5]`, `A *= B` leaves `1` in `A` (`3 * 0.5 = 1.5`
computed in `double`, then truncated), whereas converting the operand first gives
`3 * int(0.5) = 3 * 0 = 0`. -/
theorem int_times_double_not_converted_first :
    smartix.inplace_grid Op.mul intDoubleArith
        ({ _dim := [1], _full := [3] } : smartix Int)
        ({ _dim := [1], _full := [{ mant := 1, exp := -1 }] } : smartix Dbl) =
      .done { _dim := [1], _full := [1] } ∧
    (double_to_int { mant := 1, exp := -1 }).bind
        (fun c => (intArith c_int).ap Op.mul 3 c) = some 0 ∧
    ¬ ∃ A1 : smartix Int,
        smartix.inplace_grid Op.mul intDoubleArith
          ({ _dim := [1], _full := [3] } : smartix Int)
          ({ _dim := [1], _full := [{ mant := 1, exp := -1 }] } : smartix Dbl) = .done A1 ∧
        ∀ i : Nat, A1.uacc_const i =
          (({ _dim := [1], _full := [3] } : smartix Int).uacc_const i).bind (fun a =>
            (({ _dim := [1], _full := [{ mant := 1, exp := -1 }] } : smartix Dbl).uacc_const i).bind
              (fun b => (double_to_int b).bind (fun c => (intArith c_int).ap Op.mul a c))) := by
  have hrun : smartix.inplace_grid Op.mul intDoubleArith
        ({ _dim := [1], _full := [3] } : smartix Int)
        ({ _dim := [1], _full := [{ mant := 1, exp := -1 }] } : smartix Dbl) =
      .done { _dim := [1], _full := [1] } := by decide
  refine ⟨hrun, by decide, ?_⟩
  rintro ⟨A1, hA1, hcells⟩
  rw [hrun] at hA1
  cases hA1
  have h0 := hcells 0
  revert h0
  decide

/-- C9 (amended): for a receiver grid `A` of element type `T` and an operand grid `B` of
element type `R` with common arithmetic type `C`, identical dimensions and an operand storage
at least as long as the receiver storage, each in-place grid operation `A OP= B` whose element
operations are defined completes, keeps the dimensions and the storage length of `A`, and
leaves at every flat index `i` the value `back (toC (old A[i]) OP fromR (B[i]))`: both cells
are converted to `C`, the operation is carried out in `C`, and the result is converted to `T`. -/
theorem mixed_inplace_cellwise {T R C : Type} (o : Op) (toC : T → C) (fromR : R → C)
    (back : C → Option T) (arC : ElemArith C C) (A : smartix T) (B : smartix R)
    (hdim : A.getDimensions = B.getDimensions)
    (hlen : A.getData.length ≤ B.getData.length)
    (hdef : ∀ (i : Nat) (a : T) (b : R), A.uacc_const i = some a → B.uacc_const i = some b →
      ((arC.ap o (toC a) (fromR b)).bind back).isSome) :
    ∃ A1 : smartix T,
      smartix.inplace_grid o (mixedArith toC fromR back arC) A B = .done A1 ∧
      A1.getDimensions = A.getDimensions ∧
      A1.getData.length = A.getData.length ∧
      ∀ i : Nat, A1.uacc_const i =
        (A.uacc_const i).bind (fun a => (B.uacc_const i).bind (fun b =>
          (arC.ap o (toC a) (fromR b)).bind back)) := by
  have hap : ∀ (a : T) (b : R), (mixedArith toC fromR back arC).ap o a b =
      (arC.ap o (toC a) (fromR b)).bind back := by
    intro a b
    cases o <;> rfl
  obtain ⟨out, hrun, hd, hl, hcells⟩ :=
    smartix.inplace_grid_spec o (mixedArith toC fromR back arC) A B hdim hlen
      (fun j a b ha hb => by rw [hap]; exact hdef j a b ha hb)
  refine ⟨out, hrun, hd, hl, ?_⟩
  intro i
  show out._full[i]? = _
  rw [hcells i]
  simp only [hap]
  rfl

/-- C9 (amended), at the `int` grid holding `[3]` and the `double` grid holding `[0.5]` under
`*=`: the receiver ends with `[1]`. -/
theorem mixed_inplace_cellwise_witness :
    (({ _dim := [1], _full := [3] } : smartix Int).getDimensions =
        ({ _dim := [1], _full := [{ mant := 1, exp := -1 }] } : smartix Dbl).getDimensions ∧
      ({ _dim := [1], _full := [3] } : smartix Int).getData.length ≤
        ({ _dim := [1], _full := [{ mant := 1, exp := -1 }] } : smartix Dbl).getData.length) ∧
    ∃ A1 : smartix Int,
      smartix.inplace_grid Op.mul (mixedArith int_to_double id double_to_int doubleArith)
        ({ _dim := [1], _full := [3] } : smartix Int)
        ({ _dim := [1], _full := [{ mant := 1, exp := -1 }] } : smartix Dbl) = .done A1 ∧
      A1.getDimensions = ({ _dim := [1], _full := [3] } : smartix Int).getDimensions ∧
      A1.getData.length = ({ _dim := [1], _full := [3] } : smartix Int).getData.length ∧
      ∀ i : Nat, A1.uacc_const i =
        (({ _dim := [1], _full := [3] } : smartix Int).uacc_const i).bind (fun a =>
          (({ _dim := [1], _full := [{ mant := 1, exp := -1 }] } : smartix Dbl).uacc_const i).bind
            (fun b => (doubleArith.ap Op.mul (int_to_double a) (id b)).bind double_to_int)) :=
  ⟨⟨rfl, by decide⟩,
    mixed_inplace_cellwise Op.mul int_to_double id double_to_int doubleArith
      ({ _dim := [1], _full := [3] } : smartix Int)
      ({ _dim := [1], _full := [{ mant := 1, exp := -1 }] } : smartix Dbl) rfl (by decide)
      (by
        intro i a b ha hb
        cases i with
        | zero =>
          have ha3 : a = 3 := by
            simp [smartix.uacc_const] at ha; exact ha.symm
          have hb5 : b = { mant := 1, exp := -1 } := by
            simp [smartix.uacc_const] at hb; exact hb.symm
          subst ha3 hb5
          decide
        | succ n => simp [smartix.uacc_const] at ha)⟩

/-- When the receiver type is itself the common type (receiver `double`, operand `int`, as in
`dbltbl *= inttbl` of the demonstration program), the operand cell is converted to the receiver
type and the operation is carried out there. -/
theorem mixed_inplace_receiver_is_common {T R : Type} (o : Op) (fromR : R → T)
    (arT : ElemArith T T) (A : smartix T) (B : smartix R)
    (hdim : A.getDimensions = B.getDimensions)
    (hlen : A.getData.length ≤ B.getData.length)
    (hdef : ∀ (i : Nat) (a : T) (b : R), A.uacc_const i = some a → B.uacc_const i = some b →
      (arT.ap o a (fromR b)).isSome) :
    ∃ A1 : smartix T,
      smartix.inplace_grid o (mixedArith id fromR some arT) A B = .done A1 ∧
      A1.getDimensions = A.getDimensions ∧
      A1.getData.length = A.getData.length ∧
      ∀ i : Nat, A1.uacc_const i =
        (A.uacc_const i).bind (fun a => (B.uacc_const i).bind (fun b =>
          arT.ap o a (fromR b))) := by
  have hap : ∀ (a : T) (b : R), (mixedArith id fromR some arT).ap o a b =
      arT.ap o a (fromR b) := by
    intro a b
    cases o <;> simp [ElemArith.ap, mixedArith, compound_assign]
  obtain ⟨out, hrun, hd, hl, hcells⟩ :=
    smartix.inplace_grid_spec o (mixedArith id fromR some arT) A B hdim hlen
      (fun j a b ha hb => by rw [hap]; exact hdef j a b ha hb)
  refine ⟨out, hrun, hd, hl, ?_⟩
  intro i
  show out._full[i]? = _
  rw [hcells i]
  simp only [hap]
  rfl

/-! ## Frame facts: what the loops never touch -/

namespace smartix

variable {T R L : Type}

/-- Whatever its outcome, the grid loop leaves `_dim` and the storage length as they were. -/
theorem grid_loop_frame (f : T → R → Option T) (other : smartix R) :
    ∀ (n i : Nat) (self : smartix T),
      (grid_loop f other n i self).state._dim = self._dim ∧
      (grid_loop f other n i self).state._full.length = self._full.length := by
  intro n
  induction n with
  | zero => intro i self; exact ⟨rfl, rfl⟩
  | succ n ih =>
    intro i self
    unfold grid_loop
    split
    · split
      · split
        · rename_i v _ _ next hw
          have hnext : next = { self with _full := self._full.set i v } := by
            unfold uacc_write at hw
            split at hw
            · exact (Option.some.inj hw).symm
            · cases hw
          obtain ⟨h1, h2⟩ := ih (i + 1) next
          rw [h1, h2, hnext]
          exact ⟨rfl, List.length_set _ _ _⟩
        · exact ⟨rfl, rfl⟩
      · exact ⟨rfl, rfl⟩
    · exact ⟨rfl, rfl⟩

/-- Whatever its outcome and whatever its operand reads, the scalar loop leaves `_dim` and
the storage length as they were. -/
theorem scalar_loop_frame (f : T → R → Option T) (operand : ScalarRef T R) :
    ∀ (n i : Nat) (self : smartix T),
      (scalar_loop f operand n i self).state._dim = self._dim ∧
      (scalar_loop f operand n i self).state._full.length = self._full.length := by
  intro n
  induction n with
  | zero => intro i self; exact ⟨rfl, rfl⟩
  | succ n ih =>
    intro i self
    unfold scalar_loop
    split
    · split
      · split
        · rename_i v _ _ next hw
          have hnext : next = { self with _full := self._full.set i v } := by
            unfold uacc_write at hw
            split at hw
            · exact (Option.some.inj hw).symm
            · cases hw
          obtain ⟨h1, h2⟩ := ih (i + 1) next
          rw [h1, h2, hnext]
          exact ⟨rfl, List.length_set _ _ _⟩
        · exact ⟨rfl, rfl⟩
      · exact ⟨rfl, rfl⟩
    · exact ⟨rfl, rfl⟩

/-- Whatever its outcome, the cell loop leaves the number of cells as it was. -/
theorem each_cell_length (f : T → Option T) :
    ∀ cells : List T, (each_cell f cells).state.length = cells.length := by
  intro cells
  induction cells with
  | nil => rfl
  | cons x xs ih =>
    unfold each_cell
    split
    · rfl
    · split
      · rename_i ys hys
        rw [hys] at ih
        simpa [Run.state] using ih
      · rename_i e ys hys
        rw [hys] at ih
        simpa [Run.state] using ih

theorem with_cells_state (self : smartix T) (r : Run (List T)) :
    (self.with_cells r).state = { self with _full := r.state } := by
  cases r <;> rfl

/-- When both storages cover the index range of the loop, no access of the loop is out of
range. -/
theorem grid_loop_in_range (f : T → R → Option T) (other : smartix R) :
    ∀ (n i : Nat) (self s : smartix T),
      i + n ≤ self._full.length → i + n ≤ other._full.length →
      grid_loop f other n i self ≠ .stop .outOfRange s := by
  intro n
  induction n with
  | zero => intro i self s _ _ h; simp [grid_loop] at h
  | succ n ih =>
    intro i self s hs ho h
    have his : i < self._full.length := by omega
    have hio : i < other._full.length := by omega
    have hst : self._full[i]? = some self._full[i] := List.getElem?_eq_getElem his
    have hot : other._full[i]? = some other._full[i] := List.getElem?_eq_getElem hio
    simp only [grid_loop, uacc_const, uacc_write, hst, hot, his, if_true] at h
    split at h
    · exact ih (i + 1) _ s (by simp; omega) (by omega) h
    · cases h

/-- The cell loop never reports an access out of range. -/
theorem each_cell_in_range (f : T → Option T) :
    ∀ (cells out : List T), each_cell f cells ≠ .stop .outOfRange out := by
  intro cells
  induction cells with
  | nil => intro out h; cases h
  | cons x xs ih =>
    intro out h
    unfold each_cell at h
    split at h
    · cases h
    · split at h
      · cases h
      · rename_i e ys hys
        cases h
        exact ih ys hys

end smartix

/-! ## Grid assignment -/

namespace smartix

variable {T R L : Type}

/-- Same-type assignment between grids of identical dimensions replaces the storage of the
receiver by the storage of the operand. -/
theorem op_assign_spec (self copyme : smartix T)
    (hdim : self.getDimensions = copyme.getDimensions) :
    op_assign self copyme = .done { _dim := self._dim, _full := copyme._full } := by
  have hdim1 : self._dim = copyme.getDimensions := hdim
  unfold op_assign
  rw [if_pos hdim1]
  rfl

/-- Cross-type assignment between grids of identical dimensions and equal storage lengths
leaves in the receiver the cells of the operand, converted in storage order. -/
theorem op_assign_grid_spec (conv : R → Option T) (g : R → T) (self : smartix T)
    (copyme : smartix R) (hdim : self.getDimensions = copyme.getDimensions)
    (hlen : self._full.length = copyme._full.length)
    (hconv : ∀ r ∈ copyme._full, conv r = some (g r)) :
    op_assign_grid conv self copyme =
      .done { _dim := self._dim, _full := copyme._full.map g } := by
  have hdim1 : self._dim = copyme.getDimensions := hdim
  obtain ⟨out, hrun, hd, hl, hcells⟩ :=
    grid_loop_spec (fun _ r => conv r) copyme self._full.length 0 self (by omega) (by omega)
      (fun j t r _ _ _ hr => by
        have hc : conv r = some (g r) := hconv r (List.getElem?_mem hr)
        simp [hc])
  unfold op_assign_grid
  rw [if_pos hdim1, hrun]
  congr 1
  obtain ⟨odim, ofull⟩ := out
  have hcells1 : ofull = copyme._full.map g := by
    apply List.ext_getElem?
    intro j
    have hj := hcells j
    simp only at hj
    rw [hj, List.getElem?_map]
    by_cases hlt : j < self._full.length
    · have hr : 0 ≤ j ∧ j < 0 + self._full.length := by omega
      have hs : self._full[j]? = some self._full[j] := List.getElem?_eq_getElem hlt
      have hlt2 : j < copyme._full.length := by omega
      have hc : copyme._full[j]? = some copyme._full[j] := List.getElem?_eq_getElem hlt2
      rw [if_pos hr, hs, hc]
      simp only [Option.some_bind, Option.map_some']
      exact hconv _ (List.getElem_mem hlt2)
    · have hr : ¬ (0 ≤ j ∧ j < 0 + self._full.length) := by omega
      have hs : self._full[j]? = none := List.getElem?_eq_none (by omega)
      have hc : copyme._full[j]? = none := List.getElem?_eq_none (by omega)
      rw [if_neg hr, hs, hc]
      rfl
  have hd1 : odim = self._dim := hd
  rw [hd1, hcells1]

end smartix

/-- C11 (the code departs from it): `A = smartix<int>(1, 1)` and `B = smartix<double>(1, 2)`
with cells `[1.5, 2.5]` report identical dimensions; the cross-type assignment `A = B` passes
the assertion and converts only as many cells as `A` holds, so `A` ends with the storage `[1]`
while the storage of `B` converted to `int` is `[1, 2]`. -/
theorem cross_assign_convenience_truncated :
    ∃ B : smartix Dbl,
      ((smartix.of2 ({ mant := 0, exp := 0 } : Dbl) 1 2).uacc_write 0 { mant := 3, exp := -1 }).bind
        (fun g => g.uacc_write 1 { mant := 5, exp := -1 }) = some B ∧
      (smartix.of2 (0 : Int) 1 1).getDimensions = B.getDimensions ∧
      smartix.op_assign_grid double_to_int (smartix.of2 (0 : Int) 1 1) B =
        .done { _dim := [0, 0], _full := [1] } ∧
      smartix.container_cast double_to_int B.getData = some [1, 2] :=
  ⟨{ _dim := [0, 0], _full := [{ mant := 3, exp := -1 }, { mant := 5, exp := -1 }] },
    by decide, rfl, by decide, by decide⟩

/-! ## Frame facts for the operators -/

namespace smartix

variable {T R L : Type}

theorem inplace_grid_frame (o : Op) (ar : ElemArith T R) (self : smartix T) (other : smartix R) :
    (inplace_grid o ar self other).state._dim = self._dim ∧
    (inplace_grid o ar self other).state._full.length = self._full.length := by
  rw [inplace_grid_eq]
  split
  · exact grid_loop_frame _ _ _ _ _
  · exact ⟨rfl, rfl⟩

theorem op_assign_grid_frame (conv : R → Option T) (self : smartix T) (copyme : smartix R) :
    (op_assign_grid conv self copyme).state._dim = self._dim ∧
    (op_assign_grid conv self copyme).state._full.length = self._full.length := by
  unfold op_assign_grid
  split
  · exact grid_loop_frame _ _ _ _ _
  · exact ⟨rfl, rfl⟩

theorem inplace_scalar_frame (o : Op) (ar : ElemArith T R) (self : smartix T)
    (s : ScalarRef T R) :
    (inplace_scalar o ar self s).state._dim = self._dim ∧
    (inplace_scalar o ar self s).state._full.length = self._full.length := by
  rw [inplace_scalar_eq]
  exact scalar_loop_frame _ _ _ _ _

theorem op_assign_scalar_frame (conv : L → Option T) (self : smartix T) (copyme : L) :
    (op_assign_scalar conv self copyme).state._dim = self._dim ∧
    (op_assign_scalar conv self copyme).state._full.length = self._full.length := by
  unfold op_assign_scalar
  rw [with_cells_state]
  exact ⟨rfl, each_cell_length _ _⟩

theorem op_assign_frame (self copyme : smartix T) :
    (op_assign self copyme).state._dim = self._dim ∧
    ((op_assign self copyme).state._full = self._full ∨
      (self._dim = copyme._dim ∧ (op_assign self copyme).state._full = copyme._full)) := by
  unfold op_assign
  by_cases h : self._dim = copyme.getDimensions
  · rw [if_pos h]
    exact ⟨rfl, Or.inr ⟨h, rfl⟩⟩
  · rw [if_neg h]
    exact ⟨rfl, Or.inl rfl⟩

theorem alloc_grid_frame (o : Op) (ar : ElemArith T R) (self : smartix T) (other : smartix R)
    (out : smartix T) (h : alloc_grid o ar self other = .ok out) :
    out._dim = self._dim ∧ out._full.length = self._full.length := by
  rw [alloc_grid_eq] at h
  split at h
  · have hrun := Run.toExcept_ok _ _ h
    have hf := inplace_grid_frame o ar self other
    rw [hrun] at hf
    exact hf
  · cases h

theorem alloc_scalar_frame (o : Op) (ar : ElemArith T R) (self : smartix T)
    (s : ScalarRef T R) (out : smartix T) (h : alloc_scalar o ar self s = .ok out) :
    out._dim = self._dim ∧ out._full.length = self._full.length := by
  rw [alloc_scalar_eq] at h
  have hrun := Run.toExcept_ok _ _ h
  have hf := inplace_scalar_frame o ar self (fun _ => s self._full)
  rw [hrun] at hf
  exact hf

theorem container_cast_length (conv : R → Option T) :
    ∀ (cells : List R) (out : List T), container_cast conv cells = some out →
      out.length = cells.length := by
  intro cells
  induction cells with
  | nil => intro out h; cases h; rfl
  | cons x xs ih =>
    intro out h
    unfold container_cast at h
    split at h
    · rename_i y ys _ hys
      cases h
      simp [ih ys hys]
    · cases h

/-- A scalar-left operator that returns a grid returns one with the dimensions of its grid
operand and a storage as long as the wrapped product of those dimensions. -/
theorem scalar_left_frame (o : Op) (conv : L → Option T) (ar : ElemArith T T) (dflt : T)
    (lhand : L) (src out : smartix T) (h : scalar_left o conv ar dflt lhand src = .ok out) :
    out._dim = src._dim ∧
    ∃ d0 rest, src._dim = d0 :: rest ∧ out._full.length = rest.foldl size_mul d0 := by
  rw [scalar_left_eq] at h
  obtain ⟨dims, cells⟩ := src
  cases dims with
  | nil => cases h
  | cons d0 rest =>
    have h1 : ((op_assign_scalar conv
        { _dim := d0 :: rest, _full := List.replicate (rest.foldl size_mul d0) dflt }
        lhand).toExcept).bind (fun t1 =>
          (inplace_grid o ar t1 { _dim := d0 :: rest, _full := cells }).toExcept) = .ok out := h
    cases hfill : (op_assign_scalar conv
        { _dim := d0 :: rest, _full := List.replicate (rest.foldl size_mul d0) dflt }
        lhand).toExcept with
    | error e => rw [hfill] at h1; cases h1
    | ok t1 =>
      rw [hfill] at h1
      have h2 : (inplace_grid o ar t1 { _dim := d0 :: rest, _full := cells }).toExcept =
          .ok out := h1
      have hrun1 := Run.toExcept_ok _ _ hfill
      have hrun2 := Run.toExcept_ok _ _ h2
      have hf1 := op_assign_scalar_frame conv
        { _dim := d0 :: rest, _full := List.replicate (rest.foldl size_mul d0) dflt } lhand
      have hf2 := inplace_grid_frame o ar t1 { _dim := d0 :: rest, _full := cells }
      rw [hrun1] at hf1
      rw [hrun2] at hf2
      simp only [Run.state, List.length_replicate] at hf1 hf2
      refine ⟨by rw [hf2.1, hf1.1], d0, rest, rfl, by rw [hf2.2, hf1.2]⟩

end smartix

/-! ## The storage invariant -/

/-- C12 (as stated, refuted): the dimension sequence `[2 ^ 63 + 1, 2]` makes the
dimension-sequence constructor build a grid with two cells, whereas the product of its
dimensions is `2 ^ 64 + 2`: the invariant does not hold for every grid this constructor
produces. -/
theorem invariant_fails_on_wrapped_product :
    ∃ g : smartix Int, smartix.ofDimensions 0 [9223372036854775809, 2] = .ok g ∧
      g.getData.length = 2 ∧ g.getDimensions.prod = 18446744073709551618 ∧ ¬ g.invariant :=
  ⟨{ _dim := [9223372036854775809, 2], _full := [0, 0] }, by rfl, rfl, by decide,
    by unfold smartix.invariant; decide⟩

/-- C12 (amended): the predicate `storage.length == product(dimensions)` holds for the grid the
dimension-sequence constructor builds from a non-empty sequence of `size_t` values whose
product is below `2 ^ 64`; the copy and the converting constructor hand it on from their
source; and when it holds for the receiver and for the grid operand, it holds for the receiver
after every assignment (grid or scalar) and every in-place operation, whatever their outcome,
and for the result of every allocating and every scalar-left operation. -/
theorem invariant_established_and_preserved {T R S : Type} (o : Op) (ar : ElemArith T R)
    (arT : ElemArith T T) (conv : R → Option T) (convS : S → Option T) (dflt : T)
    (D : List Nat) (A : smartix T) (B : smartix R) (B0 : smartix T) (s : ScalarRef T R) (x : S)
    (hD : D ≠ []) (hDs : ∀ d ∈ D, d < 2 ^ 64) (hDp : D.prod < 2 ^ 64)
    (hA : A.invariant) (hB : B.invariant) (hB0 : B0.invariant)
    (hB0s : ∀ d ∈ B0.getDimensions, d < 2 ^ 64) (hB0l : B0.getData.length < 2 ^ 64) :
    (∃ g : smartix T, smartix.ofDimensions dflt D = .ok g ∧ g.invariant) ∧
    (smartix.ofCopy A).invariant ∧
    (∀ g : smartix T, smartix.ofGrid conv B = .ok g → g.invariant) ∧
    (smartix.inplace_grid o ar A B).state.invariant ∧
    (smartix.inplace_scalar o ar A s).state.invariant ∧
    (smartix.op_assign_grid conv A B).state.invariant ∧
    (smartix.op_assign A B0).state.invariant ∧
    (smartix.op_assign_scalar convS A x).state.invariant ∧
    (∀ X : smartix T, smartix.alloc_grid o ar A B = .ok X → X.invariant) ∧
    (∀ X : smartix T, smartix.alloc_scalar o ar A s = .ok X → X.invariant) ∧
    (∀ X : smartix T, smartix.scalar_left o convS arT dflt x B0 = .ok X → X.invariant) := by
  have hA1 : A._full.length = A._dim.prod := hA
  have hB1 : B._full.length = B._dim.prod := hB
  have hB01 : B0._full.length = B0._dim.prod := hB0
  have hkeep : ∀ g : smartix T, g._dim = A._dim → g._full.length = A._full.length →
      g.invariant := by
    intro g h1 h2
    show g._full.length = g._dim.prod
    rw [h1, h2]
    exact hA1
  refine ⟨?_, hA, ?_, ?_, ?_, ?_, ?_, ?_, ?_, ?_, ?_⟩
  · cases D with
    | nil => exact absurd rfl hD
    | cons d0 rest =>
      have h0 : d0 < 2 ^ 64 := hDs d0 (List.mem_cons_self d0 rest)
      refine ⟨{ _dim := d0 :: rest, _full := List.replicate (rest.foldl size_mul d0) dflt },
        rfl, ?_⟩
      show (List.replicate (rest.foldl size_mul d0) dflt).length = (d0 :: rest).prod
      rw [List.length_replicate, smartix.foldl_size_mul rest d0 h0, ← List.prod_cons,
        Nat.mod_eq_of_lt hDp]
  · intro g hg
    unfold smartix.ofGrid at hg
    split at hg
    · rename_i cells hcells
      cases hg
      show cells.length = B._dim.prod
      rw [smartix.container_cast_length conv _ _ hcells]
      exact hB1
    · cases hg
  · exact hkeep _ (smartix.inplace_grid_frame o ar A B).1 (smartix.inplace_grid_frame o ar A B).2
  · exact hkeep _ (smartix.inplace_scalar_frame o ar A s).1
      (smartix.inplace_scalar_frame o ar A s).2
  · exact hkeep _ (smartix.op_assign_grid_frame conv A B).1
      (smartix.op_assign_grid_frame conv A B).2
  · obtain ⟨hd, hcases⟩ := smartix.op_assign_frame A B0
    show (smartix.op_assign A B0).state._full.length = (smartix.op_assign A B0).state._dim.prod
    rcases hcases with hsame | ⟨hdims, hcopy⟩
    · rw [hd, hsame]; exact hA1
    · rw [hd, hcopy, hdims]; exact hB01
  · exact hkeep _ (smartix.op_assign_scalar_frame convS A x).1
      (smartix.op_assign_scalar_frame convS A x).2
  · intro X hX
    exact hkeep X (smartix.alloc_grid_frame o ar A B X hX).1
      (smartix.alloc_grid_frame o ar A B X hX).2
  · intro X hX
    exact hkeep X (smartix.alloc_scalar_frame o ar A s X hX).1
      (smartix.alloc_scalar_frame o ar A s X hX).2
  · intro X hX
    obtain ⟨hd, d0, rest, hdims, hlen⟩ := smartix.scalar_left_frame o convS arT dflt x B0 X hX
    have h0 : d0 < 2 ^ 64 := hB0s d0 (by
      show d0 ∈ B0._dim
      rw [hdims]; exact List.mem_cons_self d0 rest)
    have hprod : (d0 :: rest).prod < 2 ^ 64 := by
      rw [← hdims, ← hB01]; exact hB0l
    show X._full.length = X._dim.prod
    rw [hlen, hd, hdims, smartix.foldl_size_mul rest d0 h0, ← List.prod_cons,
      Nat.mod_eq_of_lt hprod]

/-- C12 (amended), at the `int` grids of shape `[2, 2]` holding `[1, 2, 3, 4]` and
`[5, 6, 7, 8]`, the operator `+`, the scalars `3` and `5` and the dimension sequence `[2, 2]`;
the allocating and the scalar-left sum do return grids there. -/
theorem invariant_established_and_preserved_witness :
    (([2, 2] : List Nat) ≠ [] ∧ (∀ d ∈ ([2, 2] : List Nat), d < 2 ^ 64) ∧
      ([2, 2] : List Nat).prod < 2 ^ 64 ∧
      ints_2x2.invariant ∧ ints_2x2_b.invariant ∧
      (∀ d ∈ ints_2x2_b.getDimensions, d < 2 ^ 64) ∧ ints_2x2_b.getData.length < 2 ^ 64) ∧
    ((∃ g : smartix Int, smartix.ofDimensions 0 [2, 2] = .ok g ∧ g.invariant) ∧
      (smartix.ofCopy ints_2x2).invariant ∧
      (∀ g : smartix Int, smartix.ofGrid (int_to_int c_int) ints_2x2_b = .ok g → g.invariant) ∧
      (smartix.inplace_grid Op.add (intArith c_int) ints_2x2 ints_2x2_b).state.invariant ∧
      (smartix.inplace_scalar Op.add (intArith c_int) ints_2x2
        (ScalarRef.value 3)).state.invariant ∧
      (smartix.op_assign_grid (int_to_int c_int) ints_2x2 ints_2x2_b).state.invariant ∧
      (smartix.op_assign ints_2x2 ints_2x2_b).state.invariant ∧
      (smartix.op_assign_scalar (int_to_int c_int) ints_2x2 5).state.invariant ∧
      (∀ X : smartix Int,
        smartix.alloc_grid Op.add (intArith c_int) ints_2x2 ints_2x2_b = .ok X → X.invariant) ∧
      (∀ X : smartix Int,
        smartix.alloc_scalar Op.add (intArith c_int) ints_2x2 (ScalarRef.value 3) = .ok X →
          X.invariant) ∧
      (∀ X : smartix Int,
        smartix.scalar_left Op.add (int_to_int c_int) (intArith c_int) 0 5 ints_2x2_b = .ok X →
          X.invariant)) ∧
    smartix.alloc_grid Op.add (intArith c_int) ints_2x2 ints_2x2_b =
      .ok { _dim := [2, 2], _full := [6, 8, 10, 12] } ∧
    smartix.scalar_left Op.add (int_to_int c_int) (intArith c_int) 0 5 ints_2x2_b =
      .ok { _dim := [2, 2], _full := [10, 11, 12, 13] } :=
  have hA : ints_2x2.invariant := by unfold smartix.invariant; decide
  have hB : ints_2x2_b.invariant := by unfold smartix.invariant; decide
  ⟨⟨by decide, by decide, by decide, hA, hB, by decide, by decide⟩,
    invariant_established_and_preserved Op.add (intArith c_int) (intArith c_int)
      (int_to_int c_int) (int_to_int c_int) (0 : Int) [2, 2] ints_2x2 ints_2x2_b ints_2x2_b
      (ScalarRef.value 3) (5 : Int) (by decide) (by decide) (by decide) hA hB hB (by decide) (by decide),
    by rfl, by rfl⟩

/-! ## Dimensions are never written after construction -/

/-- C13: for every grid `A`, each in-place operation with a grid or a scalar operand, each grid
assignment (cross-type and same-type), the scalar assignment and a write through `uacc` leave
`A.getDimensions()` as it was; for the operations this holds for every outcome, hence for the
successful ones, and a write through `uacc` at an in-range index always succeeds. -/
theorem dimensions_immutable {T R S : Type} (o : Op) (ar : ElemArith T R)
    (conv : R → Option T) (convS : S → Option T) (A : smartix T) (B : smartix R)
    (B0 : smartix T) (s : ScalarRef T R) (x : S) (i : Nat) (v : T) :
    (smartix.inplace_grid o ar A B).state.getDimensions = A.getDimensions ∧
    (smartix.inplace_scalar o ar A s).state.getDimensions = A.getDimensions ∧
    (smartix.op_assign_grid conv A B).state.getDimensions = A.getDimensions ∧
    (smartix.op_assign A B0).state.getDimensions = A.getDimensions ∧
    (smartix.op_assign_scalar convS A x).state.getDimensions = A.getDimensions ∧
    (∀ A1 : smartix T, A.uacc_write i v = some A1 → A1.getDimensions = A.getDimensions) ∧
    (i < A.getData.length → ∃ A1 : smartix T, A.uacc_write i v = some A1 ∧
      A1.getDimensions = A.getDimensions ∧ A1.uacc_const i = some v) :=
  ⟨(smartix.inplace_grid_frame o ar A B).1,
    (smartix.inplace_scalar_frame o ar A s).1,
    (smartix.op_assign_grid_frame conv A B).1,
    (smartix.op_assign_frame A B0).1,
    (smartix.op_assign_scalar_frame convS A x).1,
    (by
      intro A1 h
      unfold smartix.uacc_write at h
      split at h
      · cases h; rfl
      · cases h),
    (by
      intro hi
      have hi1 : i < A._full.length := hi
      refine ⟨{ A with _full := A._full.set i v }, ?_, rfl, ?_⟩
      · unfold smartix.uacc_write
        rw [if_pos hi1]
      · simp [smartix.uacc_const, List.getElem?_set, hi1])⟩

/-- The successful runs of C13 on `int` grids of shape `[2, 2]`: `A += B`, `A *= 3`, the two
grid assignments, `A = 5` and `A.uacc(1) = 9` all complete and keep the dimensions `[2, 2]`. -/
theorem dimensions_immutable_runs :
    smartix.inplace_grid Op.add (intArith c_int) ints_2x2 ints_2x2_b =
      .done { _dim := [2, 2], _full := [6, 8, 10, 12] } ∧
    smartix.inplace_scalar Op.mul (intArith c_int) ints_2x2 (ScalarRef.value 3) =
      .done { _dim := [2, 2], _full := [3, 6, 9, 12] } ∧
    smartix.inplace_scalar Op.mul (intArith c_int) ints_2x2 (ScalarRef.cell 0) =
      .done { _dim := [2, 2], _full := [1, 2, 3, 4] } ∧
    smartix.op_assign_grid (int_to_int c_int) ints_2x2 ints_2x2_b =
      .done { _dim := [2, 2], _full := [5, 6, 7, 8] } ∧
    smartix.op_assign ints_2x2 ints_2x2_b = .done { _dim := [2, 2], _full := [5, 6, 7, 8] } ∧
    smartix.op_assign_scalar (int_to_int c_int) ints_2x2 5 =
      .done { _dim := [2, 2], _full := [5, 5, 5, 5] } ∧
    ints_2x2.uacc_write 1 9 = some { _dim := [2, 2], _full := [1, 9, 3, 4] } := by
  decide

/-! ## Initial contents -/

/-- C14: for every non-empty dimension sequence `D` and every element type, with `dflt` the
value-initialised element `T()` (zero for the numeric types), the grid built by the
dimension-sequence constructor holds `dflt` in every cell of its storage. -/
theorem ofDimensions_cells_default {T : Type} (dflt : T) (D : List Nat) (hne : D ≠ []) :
    ∃ g : smartix T, smartix.ofDimensions dflt D = .ok g ∧
      (∀ x ∈ g.getData, x = dflt) ∧
      ∀ i : Nat, i < g.getData.length → g.uacc_const i = some dflt := by
  cases D with
  | nil => exact absurd rfl hne
  | cons d0 rest =>
    refine ⟨{ _dim := d0 :: rest, _full := List.replicate (rest.foldl size_mul d0) dflt },
      rfl, ?_, ?_⟩
    · intro x hx
      exact List.eq_of_mem_replicate hx
    · intro i hi
      have hi1 : i < rest.foldl size_mul d0 := by
        simpa [smartix.getData] using hi
      simp [smartix.uacc_const, List.getElem?_replicate, hi1]

/-- C14, at `smartix<int>({3, 2})`: the storage is six zeros. -/
theorem ofDimensions_cells_default_witness :
    ([3, 2] : List Nat) ≠ [] ∧
    (∃ g : smartix Int, smartix.ofDimensions 0 [3, 2] = .ok g ∧
      (∀ x ∈ g.getData, x = 0) ∧
      ∀ i : Nat, i < g.getData.length → g.uacc_const i = some 0) ∧
    smartix.ofDimensions (0 : Int) [3, 2] = .ok { _dim := [3, 2], _full := [0, 0, 0, 0, 0, 0] } :=
  ⟨by decide, ofDimensions_cells_default (0 : Int) [3, 2] (by decide), by rfl⟩

/-! ## What the convenience constructors record -/

/-- C15: a grid built by the 2-, 3- or 4-arity constructor reports the dimensions `[0, 0]`,
`[0, 0, 0]` or `[0, 0, 0, 0]` (length 2, 3 or 4) whatever extents were passed; therefore the
shape assertion between `smartix(w, h)` and `smartix(w1, h1)` passes for all extents, in the
in-place and in the allocating operators; the storage holds `w * h` cells (in `size_t`
arithmetic) while the product of the recorded dimensions is `0`, so the storage invariant
fails whenever the storage is not empty. -/
theorem convenience_constructors_record_axis_count {T R : Type} (dflt : T) (dfltR : R) (o : Op)
    (ar : ElemArith T R) (w h d c w1 h1 : Nat) :
    (smartix.of2 dflt w h).getDimensions = [0, 0] ∧
    (smartix.of3 dflt w h d).getDimensions = [0, 0, 0] ∧
    (smartix.of4 dflt w h d c).getDimensions = [0, 0, 0, 0] ∧
    (smartix.of2 dflt w h).getDimensions = (smartix.of2 dfltR w1 h1).getDimensions ∧
    (∀ s : smartix T, smartix.inplace_grid o ar (smartix.of2 dflt w h) (smartix.of2 dfltR w1 h1) ≠
      .stop .assertion s) ∧
    smartix.alloc_grid o ar (smartix.of2 dflt w h) (smartix.of2 dfltR w1 h1) ≠
      .error .assertion ∧
    (smartix.of2 dflt w h).getData.length = (w * h) % 2 ^ 64 ∧
    (w * h < 2 ^ 64 → (smartix.of2 dflt w h).getData.length = w * h) ∧
    (smartix.of2 dflt w h).getDimensions.prod = 0 ∧
    ((w * h) % 2 ^ 64 ≠ 0 → ¬ (smartix.of2 dflt w h).invariant) := by
  have hlen : (smartix.of2 dflt w h).getData.length = (w * h) % 2 ^ 64 := by
    simp [smartix.of2, smartix.getData, size_mul, SIZE_BITS]
  have hdim : (smartix.of2 dflt w h)._dim = (smartix.of2 dfltR w1 h1).getDimensions := rfl
  have hin : ∀ s : smartix T,
      smartix.inplace_grid o ar (smartix.of2 dflt w h) (smartix.of2 dfltR w1 h1) ≠
        .stop .assertion s := by
    intro s
    rw [smartix.inplace_grid_eq, if_pos hdim]
    exact smartix.grid_loop_no_assertion _ _ _ _ _ _
  refine ⟨rfl, rfl, rfl, rfl, hin, ?_, hlen, ?_, rfl, ?_⟩
  · rw [smartix.alloc_grid_eq, if_pos hdim]
    intro hs
    cases hrun : smartix.inplace_grid o ar (smartix.of2 dflt w h) (smartix.of2 dfltR w1 h1) with
    | done s => rw [hrun] at hs; cases hs
    | stop f s =>
      rw [hrun] at hs
      simp only [Run.toExcept, Except.error.injEq] at hs
      subst hs
      exact hin s hrun
  · intro hlt
    rw [hlen, Nat.mod_eq_of_lt hlt]
  · intro hne hinv
    have hprod : (smartix.of2 dflt w h).getDimensions.prod = 0 := rfl
    unfold smartix.invariant at hinv
    rw [hlen, hprod] at hinv
    exact hne hinv

/-! ## Index safety -/

/-- C16: for grids `A` and `B` that both satisfy `storage.length == product(dimensions)` and
have identical dimensions, the two storages have the same length, every index below the loop
bound `A._full.size()` is inside both storages (so `B.uacc_const(i)` and a read or write of
`A.uacc(i)` are in range), and neither an in-place grid operation nor the cross-type grid
assignment ever uses an accessor out of range. -/
theorem index_safety {T R : Type} (o : Op) (ar : ElemArith T R) (conv : R → Option T)
    (A : smartix T) (B : smartix R) (hA : A.invariant) (hB : B.invariant)
    (hdim : A.getDimensions = B.getDimensions) :
    A.getData.length = B.getData.length ∧
    (∀ i : Nat, i < A.getData.length →
      (B.uacc_const i).isSome ∧ (A.uacc_const i).isSome ∧
        ∀ v : T, (A.uacc_write i v).isSome) ∧
    (∀ s : smartix T, smartix.inplace_grid o ar A B ≠ .stop .outOfRange s) ∧
    (∀ s : smartix T, smartix.op_assign_grid conv A B ≠ .stop .outOfRange s) := by
  have hA1 : A._full.length = A._dim.prod := hA
  have hB1 : B._full.length = B._dim.prod := hB
  have hdim1 : A._dim = B._dim := hdim
  have hlen : A._full.length = B._full.length := by rw [hA1, hB1, hdim1]
  refine ⟨hlen, ?_, ?_, ?_⟩
  · intro i hi
    have hiA : i < A._full.length := hi
    have hiB : i < B._full.length := by omega
    refine ⟨?_, ?_, ?_⟩
    · simp [smartix.uacc_const, List.getElem?_eq_getElem hiB]
    · simp [smartix.uacc_const, List.getElem?_eq_getElem hiA]
    · intro v
      simp [smartix.uacc_write, hiA]
  · intro s
    rw [smartix.inplace_grid_eq]
    split
    · exact smartix.grid_loop_in_range _ _ _ _ _ _ (by omega) (by omega)
    · intro hs; cases hs
  · intro s
    unfold smartix.op_assign_grid
    split
    · exact smartix.grid_loop_in_range _ _ _ _ _ _ (by omega) (by omega)
    · intro hs; cases hs

/-- C16, at the `int` grids of shape `[2, 2]` holding `[1, 2, 3, 4]` and `[5, 6, 7, 8]` under
`/=`: the run completes with `[0, 0, 0, 0]`. -/
theorem index_safety_witness :
    (ints_2x2.invariant ∧ ints_2x2_b.invariant ∧
      ints_2x2.getDimensions = ints_2x2_b.getDimensions) ∧
    (ints_2x2.getData.length = ints_2x2_b.getData.length ∧
      (∀ i : Nat, i < ints_2x2.getData.length →
        (ints_2x2_b.uacc_const i).isSome ∧ (ints_2x2.uacc_const i).isSome ∧
          ∀ v : Int, (ints_2x2.uacc_write i v).isSome) ∧
      (∀ s : smartix Int,
        smartix.inplace_grid Op.div (intArith c_int) ints_2x2 ints_2x2_b ≠ .stop .outOfRange s) ∧
      (∀ s : smartix Int,
        smartix.op_assign_grid (int_to_int c_int) ints_2x2 ints_2x2_b ≠ .stop .outOfRange s)) ∧
    smartix.inplace_grid Op.div (intArith c_int) ints_2x2 ints_2x2_b =
      .done { _dim := [2, 2], _full := [0, 0, 0, 0] } :=
  have hA : ints_2x2.invariant := by unfold smartix.invariant; decide
  have hB : ints_2x2_b.invariant := by unfold smartix.invariant; decide
  ⟨⟨hA, hB, rfl⟩,
    index_safety Op.div (intArith c_int) (int_to_int c_int) ints_2x2 ints_2x2_b hA hB rfl,
    by decide⟩

/-! ## Scalar on the left and scalar on the right -/

/-- A value in the range of an integer type is its own reduction. -/
theorem IntKind.wrap_of_inRange (k : IntKind) (hbits : 0 < k.bits) (x : Int)
    (hx : k.inRange x) : k.wrap x = x := by
  unfold IntKind.inRange at hx
  unfold IntKind.wrap
  cases hs : k.signed
  · simp only [hs, Bool.false_eq_true, if_false] at hx ⊢
    exact Int.emod_eq_of_lt hx.1 hx.2
  · simp only [hs, if_true] at hx ⊢
    have hM : (2 : Int) ^ k.bits = 2 ^ (k.bits - 1) + 2 ^ (k.bits - 1) := by
      have hk : k.bits = (k.bits - 1) + 1 := by omega
      conv_lhs => rw [hk, pow_succ]
      ring
    rw [Int.emod_eq_of_lt (by omega) (by omega)]
    ring

namespace smartix

/-- On an integer grid whose storage length is the wrapped product of its non-empty dimension
sequence, `s + G` is `G + s` and `s * G` is `G * s`. -/
theorem scalar_left_right_agree (k : IntKind) (hbits : 0 < k.bits) (o : Op)
    (ho : o = Op.add ∨ o = Op.mul) (s : Int) (hs : k.inRange s) (G : smartix Int)
    (hne : G._dim ≠ []) (hsize : ∀ d ∈ G._dim, d < 2 ^ 64)
    (hlen : G._full.length = G._dim.prod % 2 ^ 64) :
    scalar_left o (int_to_int k) (intArith k) 0 s G =
      alloc_scalar o (intArith k) G (ScalarRef.value s) := by
  have hcomm : ∀ b : Int, (intArith k).ap o s b = (intArith k).ap o b s := by
    intro b
    rcases ho with h | h <;> subst h
    · simp [ElemArith.ap, intArith, Int.add_comm]
    · simp [ElemArith.ap, intArith, Int.mul_comm]
  have hdefL : ∀ b ∈ G._full, ((intArith k).ap o s b).isSome := by
    intro b _
    rcases ho with h | h <;> subst h <;> rfl
  have hdefR : ∀ a ∈ G._full, ((intArith k).ap o a s).isSome := by
    intro a _
    rcases ho with h | h <;> subst h <;> rfl
  have hconv : int_to_int k s = some s := by
    unfold int_to_int
    rw [IntKind.wrap_of_inRange k hbits s hs]
  obtain ⟨X, hX, hXd, hXl, hXc⟩ :=
    scalar_left_spec o (int_to_int k) (intArith k) 0 s s G hne hsize hlen hconv hdefL
  obtain ⟨Y, hY, hYd, hYl, hYc⟩ :=
    inplace_scalar_spec o (intArith k) G (fun _ => ScalarRef.value s G._full) s (fun _ => rfl)
      hdefR
  rw [hX, alloc_scalar_eq, hY]
  show Except.ok X = Except.ok Y
  congr 1
  obtain ⟨xd, xf⟩ := X
  obtain ⟨yd, yf⟩ := Y
  have hd : xd = yd := hXd.trans hYd.symm
  have hf : xf = yf := by
    apply List.ext_getElem?
    intro j
    have h1 := hXc j
    have h2 := hYc j
    simp only at h1 h2
    rw [h1, h2]
    cases G._full[j]? with
    | none => rfl
    | some b => exact hcomm b
  rw [hd, hf]

end smartix

/-- C17 (the code departs from it): for `G = smartix<int>(1, 2)` with cells `[1, 2]` and the
scalar `3`, the scalar-left forms `3 + G` and `3 * G` return a grid with an empty storage
(built from `G.getDimensions() == [0, 0]`), while `G + 3` and `G * 3` return the cells `[4, 5]`
and `[3, 6]`: the two forms disagree. -/
theorem scalar_left_right_disagree_convenience :
    ∃ G : smartix Int,
      ((smartix.of2 (0 : Int) 1 2).uacc_write 0 1).bind (fun g => g.uacc_write 1 2) = some G ∧
      smartix.scalar_left Op.add (int_to_int c_int) (intArith c_int) 0 3 G =
        .ok { _dim := [0, 0], _full := [] } ∧
      smartix.alloc_scalar Op.add (intArith c_int) G (ScalarRef.value 3) = .ok { _dim := [0, 0], _full := [4, 5] } ∧
      smartix.scalar_left Op.mul (int_to_int c_int) (intArith c_int) 0 3 G =
        .ok { _dim := [0, 0], _full := [] } ∧
      smartix.alloc_scalar Op.mul (intArith c_int) G (ScalarRef.value 3) = .ok { _dim := [0, 0], _full := [3, 6] } ∧
      smartix.scalar_left Op.add (int_to_int c_int) (intArith c_int) 0 3 G ≠
        smartix.alloc_scalar Op.add (intArith c_int) G (ScalarRef.value 3) ∧
      smartix.scalar_left Op.mul (int_to_int c_int) (intArith c_int) 0 3 G ≠
        smartix.alloc_scalar Op.mul (intArith c_int) G (ScalarRef.value 3) := by
  refine ⟨{ _dim := [0, 0], _full := [1, 2] }, by decide, by rfl, by rfl, by rfl, by rfl, ?_, ?_⟩
  · intro h
    have h1 : (Except.ok { _dim := [0, 0], _full := [] } : Except Fault (smartix Int)) =
        Except.ok { _dim := [0, 0], _full := [4, 5] } := h
    cases h1
  · intro h
    have h1 : (Except.ok { _dim := [0, 0], _full := [] } : Except Fault (smartix Int)) =
        Except.ok { _dim := [0, 0], _full := [3, 6] } := h
    cases h1
